import Mathlib

/-!
Verification model of the incremental PDF object store (`file.go`, package `pdf`).

The Go source stores objects in `File.objects : map[uint]interface{}` whose
values are one of three dynamic types: `crossReference` ([3]uint, loaded from
the file's index), `IndirectObject` (pending, added this session), and
`freeObject` (uint, freed this session).  We model that map as an association
list from object numbers to a closed `Slot` sum type, and we model the mapped
read-only byte view (`mmap`) and the on-disk file at the granularity of whole
encoded indirect objects: the external Codec is specified in the repository's
documentation only by its contract (decode of an encoded object yields the
object back and tolerates leading whitespace), so a disk is a list of cells,
one cell per encoded indirect object, whitespace byte, header or footer, and
byte offsets become cell indices.  Go writes that advance the byte counter by
the number of bytes written advance it here by the number of cells written.

Panics reachable in the Go code (unchecked type assertions, out-of-range
slice indexing, unhandled cross-reference types) are modelled explicitly as a
`panicked` outcome, distinct from the `Null` diagnostic values that `Get`
returns on ordinary resolution problems.
-/

/-- The PDF object model (Go: the `Object` interface and its nine variants
plus `ObjectReference` and `IndirectObject`).  `real` carries the IEEE-754
bit pattern of the Go `float64`; the store never computes with Real values,
it only carries them.  `null` carries the diagnostic (Go: `Null` wraps an
`error`).  Dictionaries are association lists from names to objects (Go:
`map[Name]Object`). -/
inductive Object where
  | boolean (b : Bool)
  | integer (i : Int)
  | real (bits : Nat)
  | string (bytes : List Nat)
  | name (n : String)
  | array (elems : List Object)
  | dictionary (entries : List (String × Object))
  | stream (dict : List (String × Object)) (bytes : List Nat)
  | null (diag : String)
  | ref (num gen : Nat)
  | indirect (num gen : Nat) (obj : Object)

mutual

/-- Structural equality test on objects (used only in specifications;
the Go store itself never compares whole objects). -/
def Object.beq : Object → Object → Bool
  | .boolean a, .boolean b => a == b
  | .integer a, .integer b => a == b
  | .real a, .real b => a == b
  | .string a, .string b => a == b
  | .name a, .name b => a == b
  | .array a, .array b => Object.beqList a b
  | .dictionary a, .dictionary b => Object.beqEntries a b
  | .stream d a, .stream e b => Object.beqEntries d e && a == b
  | .null a, .null b => a == b
  | .ref a b, .ref c d => a == c && b == d
  | .indirect n g o, .indirect m h p => n == m && g == h && Object.beq o p
  | _, _ => false

/-- Elementwise equality test for object lists. -/
def Object.beqList : List Object → List Object → Bool
  | [], [] => true
  | x :: xs, y :: ys => Object.beq x y && Object.beqList xs ys
  | _, _ => false

/-- Elementwise equality test for dictionary entry lists. -/
def Object.beqEntries : List (String × Object) → List (String × Object) → Bool
  | [], [] => true
  | (k, v) :: xs, (l, w) :: ys => k == l && Object.beq v w && Object.beqEntries xs ys
  | _, _ => false

end

mutual

theorem Object.beq_refl : ∀ (a : Object), Object.beq a a = true
  | .boolean _ | .integer _ | .real _ | .string _ | .name _ | .null _ =>
      by simp [Object.beq]
  | .array a => by simp [Object.beq, Object.beqList_refl a]
  | .dictionary a => by simp [Object.beq, Object.beqEntries_refl a]
  | .stream d a => by simp [Object.beq, Object.beqEntries_refl d]
  | .ref _ _ => by simp [Object.beq]
  | .indirect _ _ o => by simp [Object.beq, Object.beq_refl o]

theorem Object.beqList_refl : ∀ (l : List Object), Object.beqList l l = true
  | [] => by simp [Object.beqList]
  | x :: xs => by simp [Object.beqList, Object.beq_refl x, Object.beqList_refl xs]

theorem Object.beqEntries_refl : ∀ (l : List (String × Object)),
    Object.beqEntries l l = true
  | [] => by simp [Object.beqEntries]
  | (k, v) :: xs => by
      simp [Object.beqEntries, Object.beq_refl v, Object.beqEntries_refl xs]

end

mutual

theorem Object.eq_of_beq : ∀ {a b : Object}, Object.beq a b = true → a = b
  | .boolean _, b, h => by cases b <;> simp_all [Object.beq]
  | .integer _, b, h => by cases b <;> simp_all [Object.beq]
  | .real _, b, h => by cases b <;> simp_all [Object.beq]
  | .string _, b, h => by cases b <;> simp_all [Object.beq]
  | .name _, b, h => by cases b <;> simp_all [Object.beq]
  | .array a, b, h => by
      cases b <;> simp only [Object.beq] at h
      case array a' => exact congrArg Object.array (Object.eqList_of_beq h)
      all_goals simp at h
  | .dictionary a, b, h => by
      cases b <;> simp only [Object.beq] at h
      case dictionary a' => exact congrArg Object.dictionary (Object.eqEntries_of_beq h)
      all_goals simp at h
  | .stream d a, b, h => by
      cases b <;> simp only [Object.beq, Bool.and_eq_true, beq_iff_eq] at h
      case stream e c =>
        rw [Object.eqEntries_of_beq h.1, h.2]
      all_goals simp at h
  | .null _, b, h => by cases b <;> simp_all [Object.beq]
  | .ref _ _, b, h => by cases b <;> simp_all [Object.beq]
  | .indirect _ _ o, b, h => by
      cases b <;> simp only [Object.beq, Bool.and_eq_true, beq_iff_eq] at h
      case indirect m g' p =>
        rw [h.1.1, h.1.2, Object.eq_of_beq h.2]
      all_goals simp at h

theorem Object.eqList_of_beq : ∀ {a b : List Object},
    Object.beqList a b = true → a = b
  | [], [], _ => rfl
  | x :: xs, y :: ys, h => by
      simp only [Object.beqList, Bool.and_eq_true] at h
      rw [Object.eq_of_beq h.1, Object.eqList_of_beq h.2]
  | [], _ :: _, h => by simp [Object.beqList] at h
  | _ :: _, [], h => by simp [Object.beqList] at h

theorem Object.eqEntries_of_beq : ∀ {a b : List (String × Object)},
    Object.beqEntries a b = true → a = b
  | [], [], _ => rfl
  | (k, v) :: xs, (l, w) :: ys, h => by
      simp only [Object.beqEntries, Bool.and_eq_true, beq_iff_eq] at h
      rw [h.1.1, Object.eq_of_beq h.1.2, Object.eqEntries_of_beq h.2]
  | [], _ :: _, h => by simp [Object.beqEntries] at h
  | _ :: _, [], h => by simp [Object.beqEntries] at h

end

instance : DecidableEq Object := fun a b =>
  if h : Object.beq a b = true then isTrue (Object.eq_of_beq h)
  else isFalse (fun he => h (he ▸ Object.beq_refl a))

/-- Go: `type crossReference [3]uint`; field 0 is the entry type
(0 free, 1 normal, 2 compressed), fields 1 and 2 per type. -/
structure CrossRef where
  f0 : Nat
  f1 : Nat
  f2 : Nat
deriving DecidableEq

/-- One value of the heterogeneous `File.objects` map:
`crossReference` (unmodified index entry), `IndirectObject` (pending) or
`freeObject` (newly freed, the stored number is the next generation). -/
inductive Slot where
  | crossReference (c : CrossRef)
  | indirectObject (num gen : Nat) (obj : Object)
  | freeObject (gen : Nat)
deriving DecidableEq

/-- A cell of the on-disk byte stream / mapped view, at the granularity of
the Codec contract: the `%PDF-1.7` header, a whitespace byte, one whole
encoded indirect object (`<num> <gen> obj ... endobj`), or the
`startxref <offset> %%EOF` footer. -/
inductive DiskCell where
  | header
  | ws
  | obj (num gen : Nat) (o : Object)
  | xrefTable (xrefs : List (Nat × CrossRef)) (groups : List (List Nat))
  | trailerDict (d : List (String × Object))
  | footer (startxref : Int)
deriving DecidableEq

abbrev Disk := List DiskCell

/-- Association-list lookup for the `File.objects` map. -/
def lookupSlot : List (Nat × Slot) → Nat → Option Slot
  | [], _ => none
  | (k', v) :: rest, k => if k' = k then some v else lookupSlot rest k

/-- Association-list store (`f.objects[k] = v`): replaces in place, else
appends. -/
def insertSlot (m : List (Nat × Slot)) (k : Nat) (v : Slot) : List (Nat × Slot) :=
  match m with
  | [] => [(k, v)]
  | (k', v') :: rest =>
      if k' = k then (k, v) :: rest else (k', v') :: insertSlot rest k v

/-- Go: `File` — the object store.  `mmap` is the read-only view mapped at
Open (empty for a Created file); os handles and the filename are not part of
the model, the disk itself is passed to Save explicitly. -/
structure PdfFile where
  created : Bool
  mmap : Disk
  objects : List (Nat × Slot)
  size : Nat
  prev : Int
  Root : Nat × Nat
  Encrypt : List (String × Object)
  Info : Nat × Nat
  ID : List Object
deriving DecidableEq

/-- Go: `Create` — a fresh store (the `%PDF-1.7` header it writes to disk is
the one-cell disk `[DiskCell.header]`). -/
def createFile : PdfFile :=
  { created := true, mmap := [], objects := [], size := 1, prev := 0,
    Root := (0, 0), Encrypt := [], Info := (0, 0), ID := [] }

/-- The disk produced by `Create`: just the `%PDF-1.7` header. -/
def createDisk : Disk := [DiskCell.header]

/-- Dictionary lookup (Go: `dict[Name("k")]`, `nil` when absent). -/
def dictGet : List (String × Object) → String → Option Object
  | [], _ => none
  | (k', v) :: rest, k => if k' = k then some v else dictGet rest k

/-- Dictionary store (Go: `dict[Name("k")] = v`). -/
def dictSet (d : List (String × Object)) (k : String) (v : Object) :
    List (String × Object) :=
  match d with
  | [] => [(k, v)]
  | (k', v') :: rest =>
      if k' = k then (k, v) :: rest else (k', v') :: dictSet rest k v

/-- The observable result of a call to `Get`: a returned `Object`; a Go
runtime panic (unchecked type assertion, out-of-range index or slice,
unhandled cross-reference entry type); or divergence (out of recursion
fuel, modelling unbounded Go recursion through containers or `Length`
chains). -/
inductive Outcome where
  | ok (o : Object)
  | panicked (msg : String)
  | diverge
deriving DecidableEq

/-- Modelled from the spec: `ObjectReference`'s printed form (the repo's
object-model file is not under src/); §4.1 gives the boundary form
`<objectNumber> <generationNumber> R`.  Only used inside diagnostics. -/
def refStr (num gen : Nat) : String := s!"{num} {gen} R"

/-- Whitespace disk cell test. -/
def isWsCell : DiskCell → Bool
  | .ws => true
  | _ => false

/-- Modelled from the spec: the Codec's `parseIndirectObject` (the Codec is
external to src/ and specified by its contract in §4.1/§6): at the cell
granularity it skips whitespace and yields the next encoded indirect
object's number, generation and value, failing on anything else. -/
def parseIndirectObject (d : Disk) : Except String (Nat × Nat × Object) :=
  match d.dropWhile isWsCell with
  | DiskCell.obj n g o :: _ => Except.ok (n, g, o)
  | _ => Except.error "expected an indirect object"

/-- PDF whitespace bytes (space, LF, CR, TAB, FF, NUL). -/
def isWsByte (b : Nat) : Bool :=
  b = 32 || b = 10 || b = 13 || b = 9 || b = 12 || b = 0

/-- ASCII digit test. -/
def isDigitByte (b : Nat) : Bool := 48 ≤ b && b ≤ 57

/-- Value of a big-endian ASCII digit string. -/
def digitsVal (ds : List Nat) : Int :=
  ds.foldl (fun a d => a * 10 + ((d - 48 : Nat) : Int)) 0

/-- Modelled from the spec: the Codec's `parseNumeric` (used by `Get` on an
object stream's header, a sequence of integer numerals): skip leading
whitespace, parse an optionally-signed decimal numeral, and report the
total number of bytes consumed; fail when no digits are present. -/
def parseNumeric (bytes : List Nat) : Except String (Int × Nat) :=
  let wsCount := (bytes.takeWhile isWsByte).length
  let rest := bytes.drop wsCount
  match rest with
  | 45 :: rest2 =>
      let ds := rest2.takeWhile isDigitByte
      if ds.isEmpty then Except.error "not a numeric"
      else Except.ok (-(digitsVal ds), wsCount + 1 + ds.length)
  | _ =>
      let ds := rest.takeWhile isDigitByte
      if ds.isEmpty then Except.error "not a numeric"
      else Except.ok (digitsVal ds, wsCount + ds.length)

/-- Bytes to string, for parsed names. -/
def natsToString (l : List Nat) : String :=
  String.mk (l.map Char.ofNat)

/-- Modelled from the spec: the Codec's `parseObject` (decode one object
value at a byte offset inside a decompressed object-stream payload),
restricted to the grammar fragment the claims exercise: booleans, `null`,
names and integers.  The claims about `Get`'s compressed-entry path only
compare *which* offset is decoded, never richer grammar. -/
def parseObject (bytes : List Nat) : Except String (Object × Nat) :=
  let wsCount := (bytes.takeWhile isWsByte).length
  let rest := bytes.drop wsCount
  match rest with
  | 116 :: 114 :: 117 :: 101 :: _ => Except.ok (Object.boolean true, wsCount + 4)
  | 102 :: 97 :: 108 :: 115 :: 101 :: _ => Except.ok (Object.boolean false, wsCount + 5)
  | 110 :: 117 :: 108 :: 108 :: _ => Except.ok (Object.null "", wsCount + 4)
  | 47 :: rest2 =>
      let cs := rest2.takeWhile (fun b => !isWsByte b && b ≠ 47)
      Except.ok (Object.name (natsToString cs), wsCount + 1 + cs.length)
  | _ => (parseNumeric bytes).map (fun p => (Object.integer p.1, p.2))

/-- Modelled from the spec: `Stream.Decode` applies the content filters
named by the dictionary's `Filter` entry; filter decompression is declared
out of scope (§1), so an unfiltered stream decodes to its raw payload and
any filtered stream fails to decode. -/
def decodeStream (dict : List (String × Object)) (bytes : List Nat) :
    Except String (List Nat) :=
  match dictGet dict "Filter" with
  | none => Except.ok bytes
  | some _ => Except.error "unsupported filter"

/-- The `N*2` sequential-numeral loop of `Get`'s compressed case
(file.go:171-180): each numeral starts where the previous one stopped. -/
def parseNumericList (bytes : List Nat) : Nat → Except String (List Int)
  | 0 => Except.ok []
  | count + 1 =>
      match parseNumeric bytes with
      | Except.error e => Except.error e
      | Except.ok (v, n) =>
          (parseNumericList (bytes.drop n) count).map (fun l => v :: l)

/-- The self-healing fallback scan of `Get`'s compressed case
(file.go:189-197): walk the `(objectNumber, offset)` pairs, return the
offset paired with the first matching object number; when nothing matches
the offset taken from the recorded slot stands.  A match at the last
position of an odd-length list is Go's `index[i+1]` out-of-range panic. -/
def scanPairs : List Int → Int → Int → Except String Int
  | a :: b :: rest, wanted, dflt =>
      if a = wanted then Except.ok b else scanPairs rest wanted dflt
  | [a], wanted, dflt =>
      if a = wanted then Except.error "index out of range" else Except.ok dflt
  | [], _, dflt => Except.ok dflt

/-- The trailing `Length`-resolution step of `Get` (file.go:219-227): if the
object about to be returned is a Stream whose `Length` entry is an
ObjectReference, resolve it with `Get` and truncate the payload to the
resolved length.  The Go code casts `f.Get(lengthRef).(Integer)` without a
comma-ok check and slices `streamObj.Stream[:int(length)]`, so a
non-Integer resolution result, a negative length, or a length beyond the
payload is a run-time panic. -/
def resolveStreamLength (getRec : Nat → Nat → Outcome) : Object → Outcome
  | .stream d bytes =>
      match dictGet d "Length" with
      | some (.ref ln lg) =>
          match getRec ln lg with
          | .ok (.integer len) =>
              if len < 0 then .panicked "slice bounds out of range"
              else if bytes.length < len.toNat then
                .panicked "slice bounds out of range"
              else
                .ok (.stream (dictSet d "Length" (.integer len))
                      (bytes.take len.toNat))
          | .ok _ => .panicked "interface conversion: pdf.Object is not pdf.Integer"
          | r => r
      | _ => .ok (.stream d bytes)
  | o => .ok o

/-- Go: `File.Get` (file.go:125-230), with explicit fuel: every recursive
`Get` (the object-stream container fetch and the stream-`Length`
resolution) spends one unit.  The Go checks `obj.(IndirectObject)` and
`iobj.Object == nil` after a successful parse have no failing counterpart
at the cell granularity of the Codec model (a cell always carries a whole
indirect object with a value). -/
def PdfFile.Get (fuel : Nat) (f : PdfFile) (num gen : Nat) : Outcome :=
  match fuel with
  | 0 => .diverge
  | fuel + 1 =>
    match lookupSlot f.objects num with
    | none => .ok (.null (refStr num gen ++ " not found"))
    | some (.crossReference c) =>
      match c.f0 with
      | 0 => .ok (.null (refStr num gen ++ " is a free object"))
      | 1 =>
          -- offset := typed[1] - 1 on uint: typed[1] = 0 wraps around and
          -- the mmap slice panics; so does an offset past the view's end
          if c.f1 = 0 then .panicked "slice bounds out of range"
          else
            let offset := c.f1 - 1
            if f.mmap.length < offset then .panicked "slice bounds out of range"
            else
              match parseIndirectObject (f.mmap.drop offset) with
              | .error _ => .ok (.null ("Error parsing " ++ refStr num gen))
              | .ok (_, _, o) => resolveStreamLength (PdfFile.Get fuel f) o
      | 2 =>
          match PdfFile.Get fuel f c.f1 0 with
          | .panicked m => .panicked m
          | .diverge => .diverge
          | .ok containerObj =>
            match containerObj with
            | .stream sdict sbytes =>
              -- N := int(objectStream.Dictionary[Name("N")].(Integer)):
              -- an unchecked type assertion
              match dictGet sdict "N" with
              | some (.integer n) =>
                match decodeStream sdict sbytes with
                | .error _ => .ok (.null ("could not decode " ++ refStr c.f1 0))
                | .ok payload =>
                  match parseNumericList payload (2 * n).toNat with
                  | .error _ => .ok (.null "unable to parse numeric")
                  | .ok index =>
                    let start := c.f2 * 2
                    if start + 1 < index.length then
                      let objectNumber := index.getD start 0
                      let offset0 := index.getD (start + 1) 0
                      let offset1 :=
                        if objectNumber ≠ (num : Int) then
                          scanPairs index (num : Int) offset0
                        else Except.ok offset0
                      match offset1 with
                      | .error m => .panicked m
                      | .ok w =>
                        -- first := int(objectStream.Dictionary[Name("First")].(Integer)):
                        -- another unchecked type assertion
                        match dictGet sdict "First" with
                        | some (.integer first) =>
                            let k := first + w
                            if k < 0 then .panicked "slice bounds out of range"
                            else if payload.length < k.toNat then
                              .panicked "slice bounds out of range"
                            else
                              match parseObject (payload.drop k.toNat) with
                              | .ok (o, _) => resolveStreamLength (PdfFile.Get fuel f) o
                              | .error _ => .ok (.null "unable to parse object")
                        | _ => .panicked "interface conversion: pdf.Object is not pdf.Integer"
                    else .panicked "index out of range"
              | _ => .panicked "interface conversion: pdf.Object is not pdf.Integer"
            | _ =>
                .ok (.null (refStr num gen ++ " should be in object stream " ++
                  refStr c.f1 0 ++ ", but " ++ refStr c.f1 0 ++ " is not a stream"))
      | _ => .panicked "unhandled cross reference type"   -- Go: panic(typed[0])
    | some (.indirectObject _ _ o) => resolveStreamLength (PdfFile.Get fuel f) o
    | some (.freeObject _) =>
        .ok (.null (refStr num gen ++ " freed after pdf was loaded"))

/-- The outcome of `Add`: success (updated store plus the assigned
reference), the generation-too-low error (store unchanged, reference
carrying the corrected minimum), or a Go panic (the `default:` arms). -/
inductive AddResult where
  | ok (f : PdfFile) (refNum refGen : Nat)
  | genTooLow (f : PdfFile) (refNum refGen : Nat)
  | panicked (msg : String)
deriving DecidableEq

/-- The minimum-acceptable-generation switch of `Add` (file.go:254-276);
`none` is Go's `panic(typed[0])` arm for a cross-reference entry type
other than 0, 1, 2. -/
def minGenerationNumber : Slot → Option Nat
  | .crossReference c =>
      match c.f0 with
      | 0 => some c.f2
      | 1 => some c.f2
      | 2 => some 0
      | _ => none
  | .indirectObject _ g _ => some g
  | .freeObject g => some g

/-- Go: `File.Add` (file.go:241-301). -/
def PdfFile.Add (f : PdfFile) (obj : Object) : AddResult :=
  match obj with
  | .indirect onum ogen oval =>
      let stored := Slot.indirectObject onum ogen oval
      let updated := { f with objects := insertSlot f.objects onum stored }
      match lookupSlot f.objects onum with
      | none => .ok updated onum ogen
      | some existing =>
          match minGenerationNumber existing with
          | none => .panicked "unhandled cross reference type"
          | some minGen =>
              if ogen < minGen then .genTooLow f onum minGen
              else .ok updated onum ogen
  | _ =>
      -- a non-indirect object: auto-allocate the next object number
      let objectNumber := f.size
      let stored := Slot.indirectObject objectNumber 0 obj
      let updated := { f with size := f.size + 1,
                              objects := insertSlot f.objects objectNumber stored }
      .ok updated objectNumber 0

/-- Go: `File.Free` (file.go:696-726); `none` is the `panic(typed[0])` arm
for a cross-reference entry type other than 0, 1, 2. -/
def PdfFile.Free (f : PdfFile) (objectNumber : Nat) : Option PdfFile :=
  let mark := fun (g : Nat) =>
    { f with objects := insertSlot f.objects objectNumber (Slot.freeObject g) }
  match lookupSlot f.objects objectNumber with
  | none => some f
  | some (.crossReference c) =>
      match c.f0 with
      | 0 => some f
      | 1 => some (mark (c.f2 + 1))
      | 2 => some (mark 1)
      | _ => none
  | some (.indirectObject _ g _) => some (mark (g + 1))
  | some (.freeObject _) => some f

/-- Presence-aware read of an xref map. -/
def xrefFind : List (Nat × CrossRef) → Nat → Option CrossRef
  | [], _ => none
  | (k', v) :: rest, k => if k' = k then some v else xrefFind rest k

/-- Go map read `xrefs[Integer(i)]`: a missing key yields the zero value
`crossReference{0,0,0}`. -/
def xrefGet (m : List (Nat × CrossRef)) (k : Nat) : CrossRef :=
  (xrefFind m k).getD ⟨0, 0, 0⟩

/-- Go map write `xrefs[Integer(i)] = v`. -/
def xrefSet (m : List (Nat × CrossRef)) (k : Nat) (v : CrossRef) :
    List (Nat × CrossRef) :=
  match m with
  | [] => [(k, v)]
  | (k', v') :: rest =>
      if k' = k then (k, v) :: rest else (k', v') :: xrefSet rest k v

/-- Insert into an ascending list (for Go's `sort.IntSlice.Sort`). -/
def insertSorted (x : Nat) : List Nat → List Nat
  | [] => [x]
  | y :: ys => if x ≤ y then x :: y :: ys else y :: insertSorted x ys

/-- Ascending sort (Go: `sort.IntSlice.Sort` / `sort.Sort`). -/
def sortNat : List Nat → List Nat
  | [] => []
  | x :: xs => insertSorted x (sortNat xs)

/-- One revision's object-writing loop, the loop body shared verbatim by
`saveUsingXrefTable` (file.go:349-377) and `saveUsingXrefStream`
(file.go:508-536): walk the slot map; every pending object is appended to
the disk followed by a blank line and recorded in the xref map at its
starting position; newly freed slots are recorded as free entries; free
object numbers (both newly freed and unchanged-free) are collected.
`offset` is Go's running byte counter (a cell counter here, maintaining
`offset = disk.length + 1`).  Go iterates the map in unspecified order;
the model iterates the association list in storage order. -/
def writeObjectsLoop :
    List (Nat × Slot) → Disk → Nat → List (Nat × CrossRef) → List Nat →
    Disk × Nat × List (Nat × CrossRef) × List Nat
  | [], disk, offset, xrefs, free => (disk, offset, xrefs, free)
  | (i, slot) :: rest, disk, offset, xrefs, free =>
      match slot with
      | .crossReference c =>
          -- unchanged objects are not rewritten; on-disk free entries
          -- still join the free list
          if c.f0 = 0 then
            writeObjectsLoop rest disk offset xrefs (free ++ [i])
          else
            writeObjectsLoop rest disk offset xrefs free
      | .indirectObject n g o =>
          let xrefs' := xrefSet xrefs i ⟨1, offset - 1, g⟩
          let disk' := disk ++ [DiskCell.obj n g o, DiskCell.ws, DiskCell.ws]
          writeObjectsLoop rest disk' (offset + 1 + 2) xrefs' free
      | .freeObject g =>
          writeObjectsLoop rest disk offset (xrefSet xrefs i ⟨0, 0, g⟩)
            (free ++ [i])

/-- Go: the `maxObjNum` scans (file.go:437-442 and 539-544). -/
def maxObjNum (m : List (Nat × Slot)) : Nat :=
  m.foldl (fun acc p => max acc p.1) 0

/-- Thread the free linked list (file.go:380-385 and 554-559): walking the
sorted free numbers, each one's offset field is overwritten with the next
free number.  Go reads `xrefs[free[i]]` with zero-value semantics, so a
free number that never received an xref entry this save (an unchanged
on-disk free entry) contributes a fresh `{0, next, 0}` record. -/
def linkFreeList (sorted : List Nat) (xrefs : List (Nat × CrossRef)) :
    List (Nat × CrossRef) :=
  match sorted with
  | a :: b :: rest =>
      let x := xrefGet xrefs a
      linkFreeList (b :: rest) (xrefSet xrefs a ⟨x.f0, b, x.f2⟩)
  | _ => xrefs

/-- Partition an ascending object-number list into maximal consecutive
runs (file.go:394-407 and 568-580).  An empty input yields the single
empty group Go's trailing `append` produces. -/
def groupRunsAux (acc : List Nat) (x : Nat) : List Nat → List (List Nat)
  | [] => [acc ++ [x]]
  | y :: ys =>
      if y = x + 1 then groupRunsAux (acc ++ [x]) y ys
      else (acc ++ [x]) :: groupRunsAux [] y ys

/-- See `groupRunsAux`. -/
def groupRuns : List Nat → List (List Nat)
  | [] => [[]]
  | x :: xs => groupRunsAux [] x xs

/-- Fuel-bounded base-256 digit count (structural recursion, so concrete
evaluations reduce inside the kernel); any `fuel ≥ n` is adequate because
the argument shrinks by a factor of 256 each step. -/
def nBytesForIntGo : Nat → Nat → Nat
  | _, 0 => 1
  | n, fuel + 1 => if n < 256 then 1 else 1 + nBytesForIntGo (n / 256) fuel

/-- Modelled from the spec: `nBytesForInt` (called at file.go:631 but not
under src/): §4.4 says field widths are the minimum byte count able to
represent the maximum observed value. -/
def nBytesForInt (n : Nat) : Nat := nBytesForIntGo n n

/-- Modelled from the spec: `intToBytes` (called at file.go:642 but not
under src/): the fixed-width big-endian binary encoding of one
cross-reference field (§4.4). -/
def intToBytes (v : Nat) : Nat → List Nat
  | 0 => []
  | k + 1 => intToBytes (v / 256) k ++ [v % 256]

/-- Big-endian byte-list value (the reader's inverse of `intToBytes`). -/
def bytesToNat (l : List Nat) : Nat :=
  l.foldl (fun a b => a * 256 + b) 0

/-- Fieldwise maxima over all xref records (file.go:621-628), choosing the
`W` widths. -/
def maxXref (xrefs : List (Nat × CrossRef)) : CrossRef :=
  xrefs.foldl
    (fun acc p => ⟨max acc.f0 p.2.f0, max acc.f1 p.2.f1, max acc.f2 p.2.f2⟩)
    ⟨0, 0, 0⟩

/-- The binary payload of the cross-reference stream (file.go:637-648):
for every group, for every object number, the three fixed-width fields. -/
def xrefStreamPayload (groups : List (List Nat)) (xrefs : List (Nat × CrossRef))
    (w0 w1 w2 : Nat) : List Nat :=
  (groups.map (fun g =>
    (g.map (fun n =>
      let x := xrefGet xrefs n
      intToBytes x.f0 w0 ++ intToBytes x.f1 w1 ++
        intToBytes x.f2 w2)).flatten)).flatten

/-- The result of a save: the store and disk afterwards, plus ghost
observations of values Go keeps in locals (the final xref map, the trailer
dictionary, the startxref offset), exposed for specification only. -/
structure SaveResult where
  file : PdfFile
  disk : Disk
  xrefs : List (Nat × CrossRef)
  trailer : List (String × Object)
  startxref : Int
deriving DecidableEq

/-- The trailer entries common to both save forms
(file.go:433-466 and 583-607), in Go's insertion order: `Size`, `Prev`
(omitted when zero), `Root`, and the optional `Encrypt`, `Info`, `ID`. -/
def commonTrailer (f : PdfFile) (size : Nat) : List (String × Object) :=
  let t0 := dictSet [] "Size" (Object.integer size)
  let t1 := if f.prev ≠ 0 then dictSet t0 "Prev" (Object.integer f.prev) else t0
  let t2 := dictSet t1 "Root" (Object.ref f.Root.1 f.Root.2)
  let t3 := if f.Encrypt ≠ [] then dictSet t2 "Encrypt" (Object.dictionary f.Encrypt)
            else t2
  let t4 := if f.Info.1 ≠ 0 then dictSet t3 "Info" (Object.ref f.Info.1 f.Info.2)
            else t3
  if f.ID ≠ [] then dictSet t4 "ID" (Object.array f.ID) else t4

/-- Go: `File.saveUsingXrefTable` (file.go:319-476).  The plaintext index
section and trailer are written as single cells; I/O errors are not
modelled (appending to the model disk cannot fail). -/
def PdfFile.saveUsingXrefTable (f : PdfFile) (disk : Disk) : SaveResult :=
  let offset0 := disk.length + 1
  let disk1 := disk ++ [DiskCell.ws, DiskCell.ws]
  let offset1 := offset0 + 2
  let start := writeObjectsLoop f.objects disk1 offset1 [(0, ⟨0, 0, 65535⟩)] []
  match start with
  | (disk2, offset2, xrefs1, free1) =>
    let xrefs2 := linkFreeList (sortNat free1) xrefs1
    let objectsSorted := sortNat (xrefs2.map (·.1))
    let groups := groupRuns objectsSorted
    let m := maxObjNum f.objects
    let trailer := commonTrailer f (m + 1)
    let disk3 := disk2 ++ [DiskCell.xrefTable xrefs2 groups,
                           DiskCell.trailerDict trailer,
                           DiskCell.footer ((offset2 : Int) - 1)]
    { file := f, disk := disk3, xrefs := xrefs2, trailer := trailer,
      startxref := (offset2 : Int) - 1 }

/-- Go: `File.saveUsingXrefStream` (file.go:478-672).  The cross-reference
stream becomes one more appended object; its entry is first placed in the
map and the slot map directly (file.go:549-551) and the stream object is
then `Add`ed (file.go:659), overwriting that slot with a pending object. -/
def PdfFile.saveUsingXrefStream (f : PdfFile) (disk : Disk) : SaveResult :=
  let offset0 := disk.length + 1
  let disk1 := disk ++ [DiskCell.ws, DiskCell.ws]
  let offset1 := offset0 + 2
  let start := writeObjectsLoop f.objects disk1 offset1 [(0, ⟨0, 0, 65535⟩)] [0]
  match start with
  | (disk2, offset2, xrefs1, free1) =>
    let m := maxObjNum f.objects
    let x := m + 1                        -- the xref stream's object number
    let m1 := m + 1                       -- maxObjNum++
    let selfXref : CrossRef := ⟨1, offset2 - 1, 0⟩
    let xrefs2 := xrefSet xrefs1 x selfXref
    let selfSlot := Slot.crossReference selfXref
    let fMid := { f with objects := insertSlot f.objects x selfSlot }
    let xrefs3 := linkFreeList (sortNat free1) xrefs2
    let objectsSorted := sortNat (xrefs3.map (·.1))
    let groups := groupRuns objectsSorted
    let t0 := commonTrailer f (m1 + 1)
    let t1 := dictSet t0 "Type" (Object.name "XRef")
    let indexArr := (groups.map (fun g =>
      [Object.integer (g.headD 0), Object.integer g.length])).flatten
    let t2 := dictSet t1 "Index" (Object.array indexArr)
    let mx := maxXref xrefs3
    let w0 := nBytesForInt mx.f0
    let w1 := nBytesForInt mx.f1
    let w2 := nBytesForInt mx.f2
    let t3 := dictSet t2 "W"
      (Object.array [Object.integer w0, Object.integer w1, Object.integer w2])
    let payload := xrefStreamPayload groups xrefs3 w0 w1 w2
    let xrefstreamObj := Object.stream t3 payload
    match fMid.Add (Object.indirect x 0 xrefstreamObj) with
    | .ok fFinal _ _ =>
        let disk3 := disk2 ++ [DiskCell.obj x 0 xrefstreamObj,
                               DiskCell.footer ((offset2 : Int) - 1)]
        { file := fFinal, disk := disk3, xrefs := xrefs3, trailer := t3,
          startxref := (offset2 : Int) - 1 }
    | _ =>
        -- unreachable: the slot for x holds a normal entry of generation 0,
        -- so Add at generation 0 cannot be rejected
        { file := fMid, disk := disk2, xrefs := xrefs3, trailer := t3,
          startxref := (offset2 : Int) - 1 }

/-- Go: `File.Save` (file.go:314-317) — the stream form (the table form is
commented out in the source). -/
def PdfFile.Save (f : PdfFile) (disk : Disk) : SaveResult :=
  f.saveUsingXrefStream disk

/-- Modelled from the spec: the fixed-width record reader of
`loadReferences` (not under src/) — §4.4: one run of `count` consecutive
records of widths `w0,w1,w2` starting at object number `first`; returns
the decoded entries and the remaining payload. -/
def readRun (w0 w1 w2 : Nat) :
    Nat → Nat → List Nat → Except String (List (Nat × CrossRef) × List Nat)
  | _, 0, bytes => Except.ok ([], bytes)
  | first, count + 1, bytes =>
      let w := w0 + w1 + w2
      if bytes.length < w then Except.error "xref stream payload too short"
      else
        let e : CrossRef := ⟨bytesToNat (bytes.take w0),
                             bytesToNat ((bytes.drop w0).take w1),
                             bytesToNat ((bytes.drop (w0 + w1)).take w2)⟩
        (readRun w0 w1 w2 (first + 1) count (bytes.drop w)).map
          (fun p => ((first, e) :: p.1, p.2))

/-- Modelled from the spec: all `Index` runs of one revision, in order. -/
def readRuns (w0 w1 w2 : Nat) :
    List (Nat × Nat) → List Nat → Except String (List (Nat × CrossRef))
  | [], _ => Except.ok []
  | (first, count) :: rest, bytes =>
      match readRun w0 w1 w2 first count bytes with
      | Except.error e => Except.error e
      | Except.ok (entries, bytes') =>
          (readRuns w0 w1 w2 rest bytes').map (fun l => entries ++ l)

/-- Modelled from the spec: decode the trailer's `Index` array into
`(first, count)` pairs (§4.4). -/
def indexPairs : List Object → Except String (List (Nat × Nat))
  | [] => Except.ok []
  | .integer a :: .integer b :: rest =>
      if a < 0 ∨ b < 0 then Except.error "negative Index entry"
      else (indexPairs rest).map (fun l => (a.toNat, b.toNat) :: l)
  | _ => Except.error "malformed Index"

/-- Modelled from the spec: one step of `loadReferences` (not under src/):
parse the cross-reference stream object at offset `s` (§4.4/§6).  Its
dictionary is the revision's trailer; `W` gives the field widths, `Index`
the runs, and the decoded payload the fixed-width records. -/
def parseXrefStreamAt (disk : Disk) (s : Nat) :
    Except String (List (Nat × CrossRef) × List (String × Object)) :=
  if disk.length ≤ s then Except.error "startxref out of range" else
  match parseIndirectObject (disk.drop s) with
  | Except.error e => Except.error e
  | Except.ok (_, _, Object.stream d bytes) =>
      match decodeStream d bytes with
      | Except.error e => Except.error e
      | Except.ok payload =>
        match dictGet d "W" with
        | some (.array [.integer a0, .integer a1, .integer a2]) =>
            if a0 < 0 ∨ a1 < 0 ∨ a2 < 0 then Except.error "negative W" else
            match dictGet d "Index" with
            | some (.array ix) =>
                match indexPairs ix with
                | Except.error e => Except.error e
                | Except.ok pairs =>
                    (readRuns a0.toNat a1.toNat a2.toNat pairs payload).map
                      (fun entries => (entries, d))
            | _ => Except.error "missing Index"
        | _ => Except.error "malformed W"
  | Except.ok _ => Except.error "not a cross reference stream"

/-- Modelled from the spec: `loadReferences` walks the `Prev` chain newest
revision first; an object number already seen belongs to a newer revision
and is not overridden (§2, §6).  `fuel` bounds the chain length. -/
def loadChain (disk : Disk) :
    Nat → Nat → List (Nat × Slot) → Except String (List (Nat × Slot))
  | 0, _, _ => Except.error "revision chain too deep"
  | fuel + 1, s, acc =>
      match parseXrefStreamAt disk s with
      | Except.error e => Except.error e
      | Except.ok (entries, trailer) =>
          let acc' := entries.foldl
            (fun a p =>
              if lookupSlot a p.1 = none then
                insertSlot a p.1 (Slot.crossReference p.2)
              else a) acc
          match dictGet trailer "Prev" with
          | some (.integer p) =>
              if p < 0 then Except.error "negative Prev"
              else loadChain disk fuel p.toNat acc'
          | _ => Except.ok acc'

/-- Whether a cell is the `startxref`/`%%EOF` footer. -/
def isFooterCell : DiskCell → Bool
  | .footer _ => true
  | _ => false

/-- Modelled from the spec: `Open` (file.go:51-91 plus its helper
`loadReferences`, which is not under src/): require the `%PDF-1.` header,
find the last `startxref` footer, load the revision chain, and populate
the trailer-derived fields from the newest trailer — `size` from `Size`,
`prev` set to the newest index's own offset (so the next Save chains to
it), `Root`, and the optional `Encrypt`, `Info`, `ID`. -/
def openDisk (disk : Disk) (fuel : Nat) : Except String PdfFile :=
  match disk with
  | DiskCell.header :: _ =>
      match disk.reverse.find? isFooterCell with
      | some (DiskCell.footer s) =>
          if s < 0 then Except.error "negative startxref" else
          match parseXrefStreamAt disk s.toNat with
          | Except.error e => Except.error e
          | Except.ok (_, trailer) =>
            match loadChain disk fuel s.toNat [] with
            | Except.error e => Except.error e
            | Except.ok objects =>
              match dictGet trailer "Size", dictGet trailer "Root" with
              | some (.integer sz), some (.ref rn rg) =>
                  if sz < 0 then Except.error "negative Size" else
                  Except.ok
                    { created := false, mmap := disk, objects := objects,
                      size := sz.toNat, prev := s,
                      Root := (rn, rg),
                      Encrypt :=
                        match dictGet trailer "Encrypt" with
                        | some (.dictionary d) => d
                        | _ => [],
                      Info :=
                        match dictGet trailer "Info" with
                        | some (.ref a b) => (a, b)
                        | _ => (0, 0),
                      ID :=
                        match dictGet trailer "ID" with
                        | some (.array l) => l
                        | _ => [] }
              | _, _ => Except.error "malformed trailer"
      | _ => Except.error "no startxref"
  | _ => Except.error "file does not have PDF header"

/-! ## Basic association-list lemmas -/

theorem lookupSlot_insertSlot_self (m : List (Nat × Slot)) (k : Nat) (v : Slot) :
    lookupSlot (insertSlot m k v) k = some v := by
  induction m with
  | nil => simp [insertSlot, lookupSlot]
  | cons p rest ih =>
      obtain ⟨k', v'⟩ := p
      by_cases h : k' = k
      · subst h; simp [insertSlot, lookupSlot]
      · simp [insertSlot, h, lookupSlot, ih]

theorem lookupSlot_insertSlot_ne (m : List (Nat × Slot)) (k k' : Nat) (v : Slot)
    (h : k' ≠ k) :
    lookupSlot (insertSlot m k v) k' = lookupSlot m k' := by
  induction m with
  | nil => simp [insertSlot, lookupSlot, Ne.symm h]
  | cons p rest ih =>
      obtain ⟨ka, va⟩ := p
      by_cases hk : ka = k
      · subst hk
        simp [insertSlot, lookupSlot, Ne.symm h]
      · by_cases hk' : ka = k'
        · subst hk'; simp [insertSlot, hk, lookupSlot]
        · simp [insertSlot, hk, lookupSlot, hk', ih]


/-- The store with one slot replaced (used in specifications to name the
stores the operations construct). -/
def setSlot (f : PdfFile) (k : Nat) (s : Slot) : PdfFile :=
  { f with objects := insertSlot f.objects k s }

/-! ## C3: Add's generation rule -/

/-- C3: for an `Add` of an IndirectObject whose object number already has a
slot, the minimum acceptable generation is computed from that slot (free or
normal index entry: its stored generation; compressed entry: 0; pending
object: its generation; freed slot: its recorded next generation); a
caller generation below the minimum is rejected with a GenerationTooLow
error whose reference carries the corrected minimum, leaving the store
unchanged; otherwise the slot is overwritten with the pending object. -/
theorem add_minimum_generation_rule (f : PdfFile) (onum ogen : Nat) (v : Object)
    (s : Slot) (hs : lookupSlot f.objects onum = some s)
    (m : Nat) (hm : minGenerationNumber s = some m) :
    (∀ c, s = Slot.crossReference c →
        ((c.f0 = 0 ∨ c.f0 = 1) → m = c.f2) ∧ (c.f0 = 2 → m = 0)) ∧
    (∀ n g o, s = Slot.indirectObject n g o → m = g) ∧
    (∀ g, s = Slot.freeObject g → m = g) ∧
    (ogen < m →
      f.Add (Object.indirect onum ogen v) = AddResult.genTooLow f onum m) ∧
    (m ≤ ogen →
      f.Add (Object.indirect onum ogen v) =
        AddResult.ok (setSlot f onum (Slot.indirectObject onum ogen v))
          onum ogen) := by
  refine ⟨?_, ?_, ?_, ?_, ?_⟩
  · rintro ⟨f0, f1, f2⟩ rfl
    rcases f0 with _ | _ | _ | k <;>
      simp_all [minGenerationNumber] <;> omega
  · rintro n g o rfl
    simp_all [minGenerationNumber]
  · rintro g rfl
    simp_all [minGenerationNumber]
  · intro hlt
    simp [PdfFile.Add, hs, hm, hlt]
  · intro hle
    simp [PdfFile.Add, hs, hm, Nat.not_lt.mpr hle, setSlot]

/-- Witness for C3 at a freed slot with recorded next generation 4 and a
caller generation 2. -/
theorem add_minimum_generation_rule_witness :
    ({ createFile with objects := [(1, Slot.freeObject 4)] } : PdfFile).Add
        (Object.indirect 1 2 (Object.integer 0)) =
      AddResult.genTooLow
        { createFile with objects := [(1, Slot.freeObject 4)] } 1 4 :=
  (add_minimum_generation_rule
      { createFile with objects := [(1, Slot.freeObject 4)] }
      1 2 (Object.integer 0) (Slot.freeObject 4) rfl 4 rfl).2.2.2.1
    (by decide)

/-! ## C5: Free's generation rule and idempotence -/

/-- C5: `Free n` records a next generation determined by the current slot
(normal index entry of generation g: g+1; compressed index entry: 1;
pending object of generation g: g+1), and is idempotent: a second `Free n`,
or a `Free` of an absent number or an already-free index entry, changes
nothing — so the recorded next generation after two consecutive calls
equals the one after a single call. -/
theorem free_generation_rule_and_idempotent (f : PdfFile) (n : Nat) :
    (∀ c, lookupSlot f.objects n = some (Slot.crossReference c) → c.f0 = 1 →
        f.Free n = some (setSlot f n (Slot.freeObject (c.f2 + 1)))) ∧
    (∀ c, lookupSlot f.objects n = some (Slot.crossReference c) → c.f0 = 2 →
        f.Free n = some (setSlot f n (Slot.freeObject 1))) ∧
    (∀ num g o, lookupSlot f.objects n = some (Slot.indirectObject num g o) →
        f.Free n = some (setSlot f n (Slot.freeObject (g + 1)))) ∧
    (lookupSlot f.objects n = none → f.Free n = some f) ∧
    (∀ c, lookupSlot f.objects n = some (Slot.crossReference c) → c.f0 = 0 →
        f.Free n = some f) ∧
    (∀ g, lookupSlot f.objects n = some (Slot.freeObject g) → f.Free n = some f) ∧
    (∀ f', f.Free n = some f' → f'.Free n = some f') := by
  refine ⟨?_, ?_, ?_, ?_, ?_, ?_, ?_⟩
  · intro c hs h1; simp [PdfFile.Free, hs, h1, setSlot]
  · intro c hs h2; simp [PdfFile.Free, hs, h2, setSlot]
  · intro num g o hs; simp [PdfFile.Free, hs, setSlot]
  · intro hs; simp [PdfFile.Free, hs]
  · intro c hs h0; simp [PdfFile.Free, hs, h0]
  · intro g hs; simp [PdfFile.Free, hs]
  · intro f' hf
    cases hs : lookupSlot f.objects n with
    | none =>
        simp [PdfFile.Free, hs] at hf
        subst hf; simp [PdfFile.Free, hs]
    | some s =>
        cases s with
        | crossReference c =>
            rcases hc : c.f0 with _ | _ | _ | k
            · simp [PdfFile.Free, hs, hc] at hf
              subst hf; simp [PdfFile.Free, hs, hc]
            · simp [PdfFile.Free, hs, hc] at hf
              subst hf
              simp [PdfFile.Free, lookupSlot_insertSlot_self]
            · simp [PdfFile.Free, hs, hc] at hf
              subst hf
              simp [PdfFile.Free, lookupSlot_insertSlot_self]
            · simp [PdfFile.Free, hs, hc] at hf
        | indirectObject num g o =>
            simp [PdfFile.Free, hs] at hf
            subst hf
            simp [PdfFile.Free, lookupSlot_insertSlot_self]
        | freeObject g =>
            simp [PdfFile.Free, hs] at hf
            subst hf; simp [PdfFile.Free, hs]

/-- Witness for C5 at a store holding a pending object of generation 2 at
number 1 (freeing records next generation 3). -/
theorem free_generation_rule_witness :
    ({ createFile with objects :=
        [(1, Slot.indirectObject 1 2 (Object.integer 9)),
         (3, Slot.crossReference ⟨1, 40, 5⟩)] } : PdfFile).Free 1 =
      some { createFile with objects :=
        [(1, Slot.freeObject 3), (3, Slot.crossReference ⟨1, 40, 5⟩)] } := by
  have h := (free_generation_rule_and_idempotent
      { createFile with objects :=
        [(1, Slot.indirectObject 1 2 (Object.integer 9)),
         (3, Slot.crossReference ⟨1, 40, 5⟩)] } 1).2.2.1 1 2
      (Object.integer 9) rfl
  simpa [setSlot, insertSlot] using h

/-! ## C2 and C6: Get after Add, and Get's hard-failure modes -/

/-- Whether an object is a Stream whose `Length` entry is an
ObjectReference — the one shape `Get` post-processes before returning. -/
def hasRefLength : Object → Bool
  | .stream d _ =>
      match dictGet d "Length" with
      | some (.ref _ _) => true
      | _ => false
  | _ => false

theorem resolveStreamLength_id (g : Nat → Nat → Outcome) (o : Object)
    (h : hasRefLength o = false) : resolveStreamLength g o = Outcome.ok o := by
  cases o <;> simp [resolveStreamLength]
  case stream d bytes =>
      cases hd : dictGet d "Length" with
      | none => simp [resolveStreamLength, hd]
      | some v =>
          cases v <;> simp [resolveStreamLength, hd] <;>
            simp [hasRefLength, hd] at h

/-- The store reached from `Create` by adding, at object number 1, a stream
whose `Length` entry is a reference to the absent object number 2. -/
def c2File : PdfFile :=
  { createFile with objects :=
      [(1, Slot.indirectObject 1 0
        (Object.stream [("Length", Object.ref 2 0)] [7, 8, 9]))] }

/-- C2: `Get` is claimed never to hard-fail, with an unresolvable stream
`Length` among the problems yielding a diagnostic `Null`; but the code
executes the unchecked type assertion `f.Get(lengthRef).(Integer)`
(file.go:222), so at this `Add`-reachable store, `Get` of object 1 panics
(the `Length` reference resolves to a `Null`, not an `Integer`) — at any
fuel that permits the recursive call. -/
theorem get_hard_fails_on_unresolvable_stream_length :
    createFile.Add
        (Object.indirect 1 0 (Object.stream [("Length", Object.ref 2 0)] [7, 8, 9]))
      = AddResult.ok c2File 1 0 ∧
    c2File.Get 2 1 0 =
      Outcome.panicked "interface conversion: pdf.Object is not pdf.Integer" ∧
    c2File.Get 50 1 0 =
      Outcome.panicked "interface conversion: pdf.Object is not pdf.Integer" := by
  refine ⟨by decide, rfl, by decide⟩

/-- The same store as `c2File`, constructed independently for the
Get-after-Add claim. -/
def c6File : PdfFile :=
  { createFile with objects :=
      [(1, Slot.indirectObject 1 0
        (Object.stream [("Length", Object.ref 2 0)] [7, 8, 9]))] }

/-- C6 counterexample: immediately after a successful `Add` of an
IndirectObject whose value is a stream with a dangling `Length` reference,
`Get` on its object number panics rather than returning the added value
(and in particular returns something other than that value at every tried
fuel). -/
theorem add_get_counterexample :
    createFile.Add
        (Object.indirect 1 0 (Object.stream [("Length", Object.ref 2 0)] [7, 8, 9]))
      = AddResult.ok c6File 1 0 ∧
    c6File.Get 2 1 0 =
      Outcome.panicked "interface conversion: pdf.Object is not pdf.Integer" ∧
    c6File.Get 9 1 0 ≠
      Outcome.ok (Object.stream [("Length", Object.ref 2 0)] [7, 8, 9]) := by
  refine ⟨by decide, rfl, by decide⟩

/-- C6 (amended): after a successful `Add` of an IndirectObject whose value
is not a stream with a reference `Length`, `Get` on its object number — at
any generation and any positive fuel — returns exactly that value,
regardless of the store's previous slot for that number (newest write
wins, masking on-disk entries and earlier in-session Adds). -/
theorem add_get_newest_wins (f : PdfFile) (onum ogen : Nat) (v : Object)
    (f' : PdfFile) (rn rg : Nat)
    (hadd : f.Add (Object.indirect onum ogen v) = AddResult.ok f' rn rg)
    (hv : hasRefLength v = false) (fuel : Nat) (qgen : Nat) :
    f'.Get (fuel + 1) onum qgen = Outcome.ok v := by
  have hf' : f' = setSlot f onum (Slot.indirectObject onum ogen v) := by
    simp only [PdfFile.Add] at hadd
    cases hs : lookupSlot f.objects onum with
    | none => simp [hs, setSlot] at hadd; simp [setSlot, hadd.1]
    | some s =>
        cases hmg : minGenerationNumber s with
        | none => simp [hs, hmg] at hadd
        | some mg =>
            by_cases hlt : ogen < mg
            · simp [hs, hmg, hlt] at hadd
            · simp [hs, hmg, hlt, setSlot] at hadd
              simp [setSlot, hadd.1]
  subst hf'
  simp [PdfFile.Get, setSlot, lookupSlot_insertSlot_self,
    resolveStreamLength_id _ _ hv]

/-- Witness for C6 (amended): add integer 7 at number 1 over an existing
on-disk slot, then `Get` it back. -/
theorem add_get_newest_wins_witness :
    (setSlot { createFile with objects := [(1, Slot.crossReference ⟨1, 4, 0⟩)] }
        1 (Slot.indirectObject 1 0 (Object.integer 7))).Get 1 1 5 =
      Outcome.ok (Object.integer 7) :=
  add_get_newest_wins
    { createFile with objects := [(1, Slot.crossReference ⟨1, 4, 0⟩)] }
    1 0 (Object.integer 7) _ 1 0 rfl rfl 0 5

/-! ## C10: Get resolves by object number alone -/

/-- Erase the diagnostic of a top-level `Null` result (the diagnostics
embed the requested reference's printed form, including its generation). -/
def stripNullDiag : Outcome → Outcome
  | .ok (.null _) => .ok (.null "")
  | r => r

/-- C10: `Get` resolves a reference by its object number alone: for every
store, fuel, and two references sharing an object number but differing in
generation, the results agree up to the diagnostic text inside a `Null`
result; the requested generation is never compared against the slot's
stored generation. -/
theorem get_resolves_by_object_number_alone (fuel : Nat) (f : PdfFile)
    (num g1 g2 : Nat) :
    stripNullDiag (f.Get fuel num g1) = stripNullDiag (f.Get fuel num g2) := by
  cases fuel with
  | zero => rfl
  | succ fuel =>
      simp only [PdfFile.Get]
      cases lookupSlot f.objects num with
      | none => rfl
      | some s =>
        cases s with
        | indirectObject n g o => rfl
        | freeObject g => rfl
        | crossReference c =>
          obtain ⟨f0, f1, f2⟩ := c
          rcases f0 with _ | _ | _ | k
          · rfl
          · repeat' split
            all_goals rfl
          · repeat' split
            all_goals rfl
          · rfl

/-! ## Lemmas about the xref map and the free list -/

theorem dictGet_dictSet_self (d : List (String × Object)) (k : String) (v : Object) :
    dictGet (dictSet d k v) k = some v := by
  induction d with
  | nil => simp [dictSet, dictGet]
  | cons p rest ih =>
      obtain ⟨k', v'⟩ := p
      by_cases h : k' = k
      · subst h; simp [dictSet, dictGet]
      · simp [dictSet, h, dictGet, ih]

theorem dictGet_dictSet_ne (d : List (String × Object)) (k k' : String) (v : Object)
    (h : k' ≠ k) : dictGet (dictSet d k v) k' = dictGet d k' := by
  induction d with
  | nil => simp [dictSet, dictGet, Ne.symm h]
  | cons p rest ih =>
      obtain ⟨ka, va⟩ := p
      by_cases hk : ka = k
      · subst hk; simp [dictSet, dictGet, Ne.symm h]
      · by_cases hk' : ka = k'
        · subst hk'; simp [dictSet, hk, dictGet]
        · simp [dictSet, hk, dictGet, hk', ih]

theorem xrefFind_xrefSet_self (m : List (Nat × CrossRef)) (k : Nat) (v : CrossRef) :
    xrefFind (xrefSet m k v) k = some v := by
  induction m with
  | nil => simp [xrefSet, xrefFind]
  | cons p rest ih =>
      obtain ⟨k', v'⟩ := p
      by_cases h : k' = k
      · subst h; simp [xrefSet, xrefFind]
      · simp [xrefSet, h, xrefFind, ih]

theorem xrefFind_xrefSet_ne (m : List (Nat × CrossRef)) (k k' : Nat) (v : CrossRef)
    (h : k' ≠ k) : xrefFind (xrefSet m k v) k' = xrefFind m k' := by
  induction m with
  | nil => simp [xrefSet, xrefFind, Ne.symm h]
  | cons p rest ih =>
      obtain ⟨ka, va⟩ := p
      by_cases hk : ka = k
      · subst hk; simp [xrefSet, xrefFind, Ne.symm h]
      · by_cases hk' : ka = k'
        · subst hk'; simp [xrefSet, hk, xrefFind]
        · simp [xrefSet, hk, xrefFind, hk', ih]

theorem mem_insertSorted (x y : Nat) (l : List Nat) :
    y ∈ insertSorted x l ↔ y = x ∨ y ∈ l := by
  induction l with
  | nil => simp [insertSorted]
  | cons a rest ih =>
      by_cases h : x ≤ a
      · simp [insertSorted, h]
      · simp [insertSorted, h, ih]
        tauto

theorem mem_sortNat (x : Nat) (l : List Nat) : x ∈ sortNat l ↔ x ∈ l := by
  induction l with
  | nil => simp [sortNat]
  | cons a rest ih => simp [sortNat, mem_insertSorted, ih]

theorem xrefFind_linkFreeList_notMem (l : List Nat) (m : List (Nat × CrossRef))
    (k : Nat) (h : k ∉ l) : xrefFind (linkFreeList l m) k = xrefFind m k := by
  induction l generalizing m with
  | nil => simp [linkFreeList]
  | cons a rest ih =>
      cases rest with
      | nil => simp [linkFreeList]
      | cons b rest' =>
          simp only [linkFreeList]
          rw [ih _ (by simp at h ⊢; tauto)]
          exact xrefFind_xrefSet_ne _ _ _ _ (by simp at h; tauto)

theorem key_le_maxObjNum (m : List (Nat × Slot)) :
    ∀ k ∈ m.map (·.1), k ≤ maxObjNum m := by
  have aux : ∀ (l : List (Nat × Slot)) (acc : Nat),
      acc ≤ l.foldl (fun a p => max a p.1) acc ∧
      ∀ k ∈ l.map (·.1), k ≤ l.foldl (fun a p => max a p.1) acc := by
    intro l
    induction l with
    | nil => intro acc; simp
    | cons p rest ih =>
        intro acc
        obtain ⟨k', s'⟩ := p
        constructor
        · exact le_trans (le_max_left _ _) (ih (max acc k')).1
        · intro k hk
          simp at hk
          rcases hk with rfl | hk
          · exact le_trans (le_max_right acc k) (ih (max acc k)).1
          · exact (ih (max acc k')).2 k (by simpa using hk)
  exact (aux m 0).2

/-- The write loop's xref map at keys that are not keys of the slot map. -/
theorem writeObjectsLoop_xrefs_notKey (m : List (Nat × Slot)) (d : Disk)
    (o : Nat) (xr : List (Nat × CrossRef)) (fr : List Nat) (k : Nat)
    (h : k ∉ m.map (·.1)) :
    xrefFind (writeObjectsLoop m d o xr fr).2.2.1 k = xrefFind xr k := by
  induction m generalizing d o xr fr with
  | nil => simp [writeObjectsLoop]
  | cons p rest ih =>
      obtain ⟨i, slot⟩ := p
      have hik : k ≠ i := by simp at h; tauto
      have hrest : k ∉ rest.map (·.1) := by simp at h ⊢; tauto
      cases slot with
      | crossReference c =>
          by_cases h0 : c.f0 = 0 <;>
            simp [writeObjectsLoop, h0, ih _ _ _ _ hrest]
      | indirectObject n g obj =>
          simp [writeObjectsLoop, ih _ _ _ _ hrest, xrefFind_xrefSet_ne _ _ _ _ hik]
      | freeObject g =>
          simp [writeObjectsLoop, ih _ _ _ _ hrest, xrefFind_xrefSet_ne _ _ _ _ hik]

/-- The write loop's free list: the accumulator followed by object numbers
drawn from the slot map's keys. -/
theorem writeObjectsLoop_free_mem (m : List (Nat × Slot)) (d : Disk)
    (o : Nat) (xr : List (Nat × CrossRef)) (fr : List Nat) :
    ∀ k ∈ (writeObjectsLoop m d o xr fr).2.2.2, k ∈ fr ∨ k ∈ m.map (·.1) := by
  induction m generalizing d o xr fr with
  | nil => simpa [writeObjectsLoop] using fun k hk => Or.inl hk
  | cons p rest ih =>
      obtain ⟨i, slot⟩ := p
      intro k hk
      cases slot with
      | crossReference c =>
          by_cases h0 : c.f0 = 0
          · simp only [writeObjectsLoop, h0, if_pos rfl] at hk
            rcases ih _ _ _ _ _ hk with h | h
            · simp at h; rcases h with h | h
              · exact Or.inl h
              · subst h; simp
            · simp [h]
          · simp only [writeObjectsLoop, h0, if_neg h0] at hk
            rcases ih _ _ _ _ _ hk with h | h
            · exact Or.inl h
            · simp [h]
      | indirectObject n g obj =>
          simp only [writeObjectsLoop] at hk
          rcases ih _ _ _ _ _ hk with h | h
          · exact Or.inl h
          · simp [h]
      | freeObject g =>
          simp only [writeObjectsLoop] at hk
          rcases ih _ _ _ _ _ hk with h | h
          · simp at h; rcases h with h | h
            · exact Or.inl h
            · subst h; simp
          · simp [h]

/-! ## C7: the xref stream trailer's Size and the stream's self entry -/

theorem dictGet_commonTrailer_Size (f : PdfFile) (n : Nat) :
    dictGet (commonTrailer f n) "Size" = some (Object.integer n) := by
  unfold commonTrailer
  split_ifs
  all_goals
    repeat rw [dictGet_dictSet_ne _ _ _ _ (by decide)]
  all_goals exact dictGet_dictSet_self _ _ _

theorem add_over_normal_entry_gen0 (g : PdfFile) (x off : Nat) (v : Object)
    (h : lookupSlot g.objects x = some (Slot.crossReference ⟨1, off, 0⟩)) :
    g.Add (Object.indirect x 0 v) =
      AddResult.ok (setSlot g x (Slot.indirectObject x 0 v)) x 0 := by
  simp [PdfFile.Add, h, minGenerationNumber, setSlot]

/-- The object number of the appended cross-reference stream: the saved
disk's second cell from the end (the last is the `startxref` footer). -/
def savedStreamObjNum (r : SaveResult) : Option Nat :=
  match r.disk.reverse with
  | _ :: DiskCell.obj n _ _ :: _ => some n
  | _ => none

/-- The store reached from `Create` by adding pending objects 1 and 2. -/
def c7File : PdfFile :=
  setSlot (setSlot createFile 1 (Slot.indirectObject 1 0 (Object.integer 10)))
    2 (Slot.indirectObject 2 0 (Object.integer 20))

/-- C7 counterexample: with pending objects 1 and 2, the appended cross
reference stream's own object number is 3, which is the trailer's `Size`
(4) minus one — not "size+1" under any reading of "size": not trailer
`Size` + 1 = 5, not the spec's size (highest number + 1 = 3) + 1 = 4, and
not the store's (stale) `size` field (1) + 1 = 2. -/
theorem xref_stream_self_number_counterexample :
    savedStreamObjNum (c7File.saveUsingXrefStream createDisk) = some 3 ∧
    dictGet (c7File.saveUsingXrefStream createDisk).trailer "Size" =
      some (Object.integer 4) ∧
    maxObjNum c7File.objects + 1 = 3 ∧
    c7File.size = 1 ∧
    (3 : Nat) ≠ 4 + 1 ∧ (3 : Nat) ≠ 3 + 1 ∧ (3 : Nat) ≠ 1 + 1 := by
  refine ⟨by decide, by decide, by decide, by decide, by decide, by decide, by decide⟩

/-- C7 (amended): on every cross-reference-stream save, the trailer's
`Size` entry equals the highest object number known to the written index
plus 1 (the highest is the stream's own number, `maxObjNum+1`, so `Size` is
`maxObjNum+2`); the xref stream itself becomes one more appended object
(second-to-last disk cell, before the footer) whose entry is added to the
index it describes — and its own object number is `Size - 1`, not
`size + 1`. -/
theorem xref_stream_trailer_size_and_self_object (f : PdfFile) (d : Disk) :
    dictGet (f.saveUsingXrefStream d).trailer "Size" =
      some (Object.integer (maxObjNum f.objects + 2)) ∧
    (∃ off, xrefFind (f.saveUsingXrefStream d).xrefs (maxObjNum f.objects + 1) =
      some ⟨1, off, 0⟩) ∧
    (∃ pl rest, (f.saveUsingXrefStream d).disk.reverse =
      DiskCell.footer (f.saveUsingXrefStream d).startxref ::
        DiskCell.obj (maxObjNum f.objects + 1) 0
          (Object.stream (f.saveUsingXrefStream d).trailer pl) :: rest) := by
  simp only [PdfFile.saveUsingXrefStream]
  rcases hw : writeObjectsLoop f.objects (d ++ [DiskCell.ws, DiskCell.ws])
      (d.length + 1 + 2) [(0, ⟨0, 0, 65535⟩)] [0] with ⟨d2, o2, x1, fr1⟩
  rw [add_over_normal_entry_gen0 _ _ _ _ (lookupSlot_insertSlot_self _ _ _)]
  have hx : (maxObjNum f.objects + 1) ∉ sortNat fr1 := by
    intro hmem
    have hmem' : (maxObjNum f.objects + 1) ∈
        (writeObjectsLoop f.objects (d ++ [DiskCell.ws, DiskCell.ws])
          (d.length + 1 + 2) [(0, ⟨0, 0, 65535⟩)] [0]).2.2.2 := by
      rw [hw]; exact (mem_sortNat _ _).1 hmem
    rcases writeObjectsLoop_free_mem _ _ _ _ _ _ hmem' with h | h
    · simp at h
    · have := key_le_maxObjNum f.objects _ h
      omega
  refine ⟨?_, ?_, ?_⟩
  · rw [dictGet_dictSet_ne _ _ _ _ (by decide),
        dictGet_dictSet_ne _ _ _ _ (by decide),
        dictGet_dictSet_ne _ _ _ _ (by decide),
        dictGet_commonTrailer_Size]
    norm_cast
  · rw [xrefFind_linkFreeList_notMem _ _ _ hx, xrefFind_xrefSet_self]
    exact ⟨o2 - 1, rfl⟩
  · exact ⟨_, d2.reverse, by simp; rfl⟩

/-! ## C8: Prev chaining across two in-session saves -/

/-- A fresh store with one pending object. -/
def c8File : PdfFile :=
  setSlot createFile 1 (Slot.indirectObject 1 0 (Object.integer 42))

/-- The first save of `c8File` onto the created disk. -/
def c8Save1 : SaveResult := c8File.Save createDisk

/-- A second save, without closing and reopening in between. -/
def c8Save2 : SaveResult := c8Save1.file.Save c8Save1.disk

/-- C8: the second in-session save's trailer carries no `Prev` at all even
though the first save wrote `startxref` 6, because `Save` never updates
`f.prev` (its `prev` field is still the value loaded at Open/Create, here
0) — while an actual reopen of the first save's disk yields `prev` 6, which
a subsequent save would emit.  So the second revision does not chain to the
first, contradicting the claim and `Save`'s own documentation ("After
saving, the File ... will act as though it were just Open'ed"). -/
theorem second_save_prev_not_chained :
    c8Save1.startxref = 6 ∧
    dictGet c8Save2.trailer "Prev" = none ∧
    c8Save2.file.prev = 0 ∧
    (match openDisk c8Save1.disk 5 with
     | Except.ok g => g.prev
     | Except.error _ => -1) = 6 := by
  refine ⟨by decide, by decide, by decide, by decide⟩

/-! ## C9: agreement of the two index encodings -/

theorem xrefGet_xrefSet_self (m : List (Nat × CrossRef)) (k : Nat) (v : CrossRef) :
    xrefGet (xrefSet m k v) k = v := by
  simp [xrefGet, xrefFind_xrefSet_self]

theorem xrefGet_xrefSet_ne (m : List (Nat × CrossRef)) (k k' : Nat) (v : CrossRef)
    (h : k' ≠ k) : xrefGet (xrefSet m k v) k' = xrefGet m k' := by
  simp [xrefGet, xrefFind_xrefSet_ne _ _ _ _ h]

theorem lookupSlot_eq_none_iff (m : List (Nat × Slot)) (k : Nat) :
    lookupSlot m k = none ↔ k ∉ m.map (·.1) := by
  induction m with
  | nil => simp [lookupSlot]
  | cons p rest ih =>
      obtain ⟨k', v⟩ := p
      by_cases h : k' = k
      · subst h; simp [lookupSlot]
      · simp [lookupSlot, h, ih, Ne.symm h]

theorem insertSorted_zero (l : List Nat) : insertSorted 0 l = 0 :: l := by
  cases l <;> simp [insertSorted]

/-- The write loop's disk, offset and xref outputs ignore the free-list
accumulator, which is extended by appending. -/
theorem writeObjectsLoop_free_acc (m : List (Nat × Slot)) (d : Disk) (o : Nat)
    (xr : List (Nat × CrossRef)) (fr : List Nat) :
    (writeObjectsLoop m d o xr fr).1 = (writeObjectsLoop m d o xr []).1 ∧
    (writeObjectsLoop m d o xr fr).2.1 = (writeObjectsLoop m d o xr []).2.1 ∧
    (writeObjectsLoop m d o xr fr).2.2.1 = (writeObjectsLoop m d o xr []).2.2.1 ∧
    (writeObjectsLoop m d o xr fr).2.2.2 = fr ++ (writeObjectsLoop m d o xr []).2.2.2 := by
  induction m generalizing d o xr fr with
  | nil => simp [writeObjectsLoop]
  | cons p rest ih =>
      obtain ⟨i, slot⟩ := p
      cases slot with
      | crossReference c =>
          by_cases h0 : c.f0 = 0
          · simp only [writeObjectsLoop, if_pos h0]
            refine ⟨(ih _ _ _ _).1.trans (ih _ _ _ _).1.symm,
                    (ih _ _ _ _).2.1.trans (ih _ _ _ _).2.1.symm,
                    (ih _ _ _ _).2.2.1.trans (ih _ _ _ _).2.2.1.symm, ?_⟩
            rw [(ih _ _ _ (fr ++ [i])).2.2.2, (ih _ _ _ ([] ++ [i])).2.2.2]
            simp
          · simp only [writeObjectsLoop, if_neg h0]
            exact ih _ _ _ _
      | indirectObject n g obj =>
          simp only [writeObjectsLoop]
          exact ih _ _ _ _
      | freeObject g =>
          simp only [writeObjectsLoop]
          refine ⟨(ih _ _ _ _).1.trans (ih _ _ _ _).1.symm,
                  (ih _ _ _ _).2.1.trans (ih _ _ _ _).2.1.symm,
                  (ih _ _ _ _).2.2.1.trans (ih _ _ _ _).2.2.1.symm, ?_⟩
          rw [(ih _ _ _ (fr ++ [i])).2.2.2, (ih _ _ _ ([] ++ [i])).2.2.2]
          simp

/-- linkFreeList agrees at a key when the two maps agree on everything the
linking reads and at that key. -/
theorem xrefFind_linkFreeList_agree (l : List Nat) (m1 m2 : List (Nat × CrossRef))
    (n : Nat) (hread : ∀ a ∈ l, xrefGet m1 a = xrefGet m2 a)
    (hn : xrefFind m1 n = xrefFind m2 n) :
    xrefFind (linkFreeList l m1) n = xrefFind (linkFreeList l m2) n := by
  induction l generalizing m1 m2 with
  | nil => simpa [linkFreeList] using hn
  | cons a rest ih =>
      cases rest with
      | nil => simpa [linkFreeList] using hn
      | cons b rest' =>
          simp only [linkFreeList]
          rw [hread a (by simp)]
          apply ih
          · intro e he
            by_cases hea : e = a
            · subst hea; rw [xrefGet_xrefSet_self, xrefGet_xrefSet_self]
            · rw [xrefGet_xrefSet_ne _ _ _ _ hea, xrefGet_xrefSet_ne _ _ _ _ hea]
              exact hread e (by simp [he])
          · by_cases hna : n = a
            · subst hna; rw [xrefFind_xrefSet_self, xrefFind_xrefSet_self]
            · rw [xrefFind_xrefSet_ne _ _ _ _ hna, xrefFind_xrefSet_ne _ _ _ _ hna]
              exact hn

/-- C9 (amended): for the same store (not using the reserved object
number 0), the two index encodings agree on every object number other than
0 and the stream's own entry: identical records (hence identical free-list
links among real objects).  They differ exactly at the stream form's self
entry (absent from the table form) and at the sentinel head: the stream
form links object 0 to the first free number while the table form leaves
the sentinel's next-free field 0. -/
theorem table_and_stream_index_agreement (f : PdfFile) (d : Disk)
    (h0 : lookupSlot f.objects 0 = none) :
    (∀ n, n ≠ 0 → n ≠ maxObjNum f.objects + 1 →
        xrefFind (f.saveUsingXrefStream d).xrefs n =
          xrefFind (f.saveUsingXrefTable d).xrefs n) ∧
    xrefFind (f.saveUsingXrefTable d).xrefs (maxObjNum f.objects + 1) = none ∧
    (∃ off, xrefFind (f.saveUsingXrefStream d).xrefs (maxObjNum f.objects + 1) =
        some ⟨1, off, 0⟩) ∧
    xrefFind (f.saveUsingXrefTable d).xrefs 0 = some ⟨0, 0, 65535⟩ ∧
    (∃ b, xrefFind (f.saveUsingXrefStream d).xrefs 0 = some ⟨0, b, 65535⟩) := by
  have h0' : (0 : Nat) ∉ f.objects.map (·.1) := (lookupSlot_eq_none_iff _ _).1 h0
  have hXkeys : (maxObjNum f.objects + 1) ∉ f.objects.map (·.1) := by
    intro hmem
    have := key_le_maxObjNum f.objects _ hmem
    omega
  simp only [PdfFile.saveUsingXrefStream, PdfFile.saveUsingXrefTable]
  rcases hwT : writeObjectsLoop f.objects (d ++ [DiskCell.ws, DiskCell.ws])
      (d.length + 1 + 2) [(0, ⟨0, 0, 65535⟩)] [] with ⟨dT, oT, xT, frT⟩
  rcases hwS : writeObjectsLoop f.objects (d ++ [DiskCell.ws, DiskCell.ws])
      (d.length + 1 + 2) [(0, ⟨0, 0, 65535⟩)] [0] with ⟨dS, oS, xS, frS⟩
  have hacc := writeObjectsLoop_free_acc f.objects (d ++ [DiskCell.ws, DiskCell.ws])
      (d.length + 1 + 2) [(0, ⟨0, 0, 65535⟩)] [0]
  rw [hwS, hwT] at hacc
  simp only [List.singleton_append] at hacc
  obtain ⟨-, -, hx, hfr⟩ := hacc
  subst hx
  subst hfr
  rw [add_over_normal_entry_gen0 _ _ _ _ (lookupSlot_insertSlot_self _ _ _)]
  dsimp only
  have hfrT_mem : ∀ k ∈ frT, k ∈ f.objects.map (·.1) := by
    intro k hk
    have hk' : k ∈ (writeObjectsLoop f.objects (d ++ [DiskCell.ws, DiskCell.ws])
        (d.length + 1 + 2) [(0, ⟨0, 0, 65535⟩)] []).2.2.2 := by
      rw [hwT]; exact hk
    rcases writeObjectsLoop_free_mem _ _ _ _ _ _ hk' with h | h
    · simp at h
    · exact h
  have hxT0 : xrefFind xS 0 = some ⟨0, 0, 65535⟩ := by
    have hh := writeObjectsLoop_xrefs_notKey f.objects (d ++ [DiskCell.ws, DiskCell.ws])
        (d.length + 1 + 2) [(0, ⟨0, 0, 65535⟩)] [] 0 h0'
    rw [hwT] at hh
    simpa [xrefFind] using hh
  have hxTX : xrefFind xS (maxObjNum f.objects + 1) = none := by
    have hh := writeObjectsLoop_xrefs_notKey f.objects (d ++ [DiskCell.ws, DiskCell.ws])
        (d.length + 1 + 2) [(0, ⟨0, 0, 65535⟩)] [] (maxObjNum f.objects + 1) hXkeys
    rw [hwT] at hh
    simpa [xrefFind] using hh
  have hXfrT : (maxObjNum f.objects + 1) ∉ sortNat frT := by
    rw [mem_sortNat]
    intro hmem
    exact hXkeys (hfrT_mem _ hmem)
  have h0frT : (0 : Nat) ∉ sortNat frT := by
    rw [mem_sortNat]
    intro hmem
    exact h0' (hfrT_mem _ hmem)
  have hsort : sortNat (0 :: frT) = 0 :: sortNat frT := by
    simp [sortNat, insertSorted_zero]
  rw [hsort]
  cases hsf : sortNat frT with
  | nil =>
      refine ⟨?_, ?_, ?_, ?_, ?_⟩
      · intro n hn0 hnX
        simp only [linkFreeList]
        exact xrefFind_xrefSet_ne _ _ _ _ hnX
      · simpa [linkFreeList] using hxTX
      · exact ⟨oS - 1, by simp [linkFreeList, xrefFind_xrefSet_self]⟩
      · simpa [linkFreeList] using hxT0
      · refine ⟨0, ?_⟩
        simp only [linkFreeList]
        rw [xrefFind_xrefSet_ne _ _ _ _ (by omega)]
        exact hxT0
  | cons b rest =>
      rw [hsf] at hXfrT h0frT
      have hget0 : xrefGet (xrefSet xS (maxObjNum f.objects + 1) ⟨1, oS - 1, 0⟩) 0 =
          ⟨0, 0, 65535⟩ := by
        rw [xrefGet_xrefSet_ne _ _ _ _ (by omega)]
        simp [xrefGet, hxT0]
      refine ⟨?_, ?_, ?_, ?_, ?_⟩
      · intro n hn0 hnX
        simp only [linkFreeList]
        rw [hget0]
        apply xrefFind_linkFreeList_agree
        · intro a ha
          have haK : a ∈ f.objects.map (·.1) :=
            hfrT_mem _ ((mem_sortNat _ _).1 (by rw [hsf]; exact ha))
          have ha0 : a ≠ 0 := fun hc => h0' (hc ▸ haK)
          have haX : a ≠ maxObjNum f.objects + 1 := fun hc => hXkeys (hc ▸ haK)
          rw [xrefGet_xrefSet_ne _ _ _ _ ha0, xrefGet_xrefSet_ne _ _ _ _ haX]
        · rw [xrefFind_xrefSet_ne _ _ _ _ hn0, xrefFind_xrefSet_ne _ _ _ _ hnX]
      · rw [xrefFind_linkFreeList_notMem _ _ _ hXfrT]
        exact hxTX
      · refine ⟨oS - 1, ?_⟩
        simp only [linkFreeList]
        rw [hget0]
        rw [xrefFind_linkFreeList_notMem _ _ _ (by simpa using hXfrT)]
        rw [xrefFind_xrefSet_ne _ _ _ _ (by omega), xrefFind_xrefSet_self]
      · rw [xrefFind_linkFreeList_notMem _ _ _ h0frT]
        exact hxT0
      · refine ⟨b, ?_⟩
        simp only [linkFreeList]
        rw [hget0]
        rw [xrefFind_linkFreeList_notMem _ _ _ (by simpa using h0frT)]
        rw [xrefFind_xrefSet_self]

/-- Store with one pending object (number 1) and one freed object (5). -/
def c9File : PdfFile :=
  { createFile with objects :=
      [(1, Slot.indirectObject 1 0 (Object.integer 5)), (5, Slot.freeObject 1)] }

/-- C9 counterexample: at a store with one pending and one freed object,
the two encodings disagree on coverage (the stream form also covers its
own entry, object 6) and on the free-list head (the stream form's sentinel
points at the first free number 5; the table form's sentinel keeps 0, so
its free chain stops at the head and never reaches entry 5). -/
theorem table_and_stream_disagree_counterexample :
    xrefFind (c9File.saveUsingXrefTable createDisk).xrefs 6 = none ∧
    xrefFind (c9File.saveUsingXrefStream createDisk).xrefs 6 = some ⟨1, 6, 0⟩ ∧
    xrefFind (c9File.saveUsingXrefTable createDisk).xrefs 0 = some ⟨0, 0, 65535⟩ ∧
    xrefFind (c9File.saveUsingXrefStream createDisk).xrefs 0 = some ⟨0, 5, 65535⟩ := by
  refine ⟨by decide, by decide, by decide, by decide⟩

/-- Witness for C9 (amended) at `c9File`: entry 5 agrees between the two
encodings and the table form's sentinel is `{0,0,65535}`. -/
theorem table_and_stream_index_agreement_witness :
    xrefFind (c9File.saveUsingXrefStream createDisk).xrefs 5 =
      xrefFind (c9File.saveUsingXrefTable createDisk).xrefs 5 ∧
    xrefFind (c9File.saveUsingXrefTable createDisk).xrefs 0 = some ⟨0, 0, 65535⟩ := by
  have h := table_and_stream_index_agreement c9File createDisk (by decide)
  exact ⟨h.1 5 (by decide) (by decide), h.2.2.2.1⟩

/-! ## C4: self-healing compressed-entry lookup -/

/-- `scanPairs` returns the offset paired with the first header entry
whose object number matches. -/
theorem scanPairs_first (l : List Int) (wanted dflt : Int) (j : Nat)
    (hfirst : ∀ i < j, l.getD (2 * i) 0 ≠ wanted)
    (hj : l.getD (2 * j) 0 = wanted)
    (hlen : 2 * j + 1 < l.length) :
    scanPairs l wanted dflt = Except.ok (l.getD (2 * j + 1) 0) := by
  induction j generalizing l with
  | zero =>
      match l, hlen with
      | a :: b :: rest, _ =>
          simp at hj
          simp [scanPairs, hj]
  | succ j ih =>
      match l, hlen with
      | a :: b :: rest, hlen =>
          have ha : a ≠ wanted := by
            have := hfirst 0 (by omega)
            simpa using this
          simp only [scanPairs, if_neg ha]
          have h2 : ∀ i : Nat, (a :: b :: rest).getD (2 * (i + 1)) 0 = rest.getD (2 * i) 0 := by
            intro i
            rw [show 2 * (i + 1) = 2 * i + 1 + 1 from by omega]
            simp [List.getD_cons_succ]
          have hgd : (a :: b :: rest).getD (2 * (j + 1) + 1) 0 = rest.getD (2 * j + 1) 0 := by
            rw [show 2 * (j + 1) + 1 = 2 * j + 1 + 1 + 1 from by omega]
            simp [List.getD_cons_succ]
          rw [hgd]
          apply ih
          · intro i hi
            have := hfirst (i + 1) (by omega)
            rwa [h2 i] at this
          · have hjj := hj
            rwa [h2 j] at hjj
          · simp at hlen
            omega

/-- C4: whenever `Get` resolves a reference through a compressed
(object-stream) index entry whose recorded slot index selects a header
entry whose object number differs from the requested one, it falls back to
a linear scan of the container's full `(objectNumber, relativeOffset)`
sequence and decodes the object at `First +` the offset paired with the
first matching object number — so it still returns the object whose number
matches the request. -/
theorem compressed_entry_self_heal (fuel : Nat) (f : PdfFile)
    (num gen cnum sl : Nat) (sdict : List (String × Object))
    (sbytes payload : List Nat) (n first : Int) (index : List Int) (j : Nat)
    (hslot : lookupSlot f.objects num = some (Slot.crossReference ⟨2, cnum, sl⟩))
    (hcont : f.Get fuel cnum 0 = Outcome.ok (Object.stream sdict sbytes))
    (hN : dictGet sdict "N" = some (Object.integer n))
    (hdec : decodeStream sdict sbytes = Except.ok payload)
    (hidx : parseNumericList payload (2 * n).toNat = Except.ok index)
    (hsl : sl * 2 + 1 < index.length)
    (hmis : index.getD (sl * 2) 0 ≠ (num : Int))
    (hfirstm : ∀ i < j, index.getD (2 * i) 0 ≠ (num : Int))
    (hj : index.getD (2 * j) 0 = (num : Int))
    (hjlen : 2 * j + 1 < index.length)
    (hFirst : dictGet sdict "First" = some (Object.integer first))
    (hpos : 0 ≤ first + index.getD (2 * j + 1) 0)
    (hbound : (first + index.getD (2 * j + 1) 0).toNat ≤ payload.length) :
    f.Get (fuel + 1) num gen =
      match parseObject (payload.drop (first + index.getD (2 * j + 1) 0).toNat) with
      | Except.ok (o, _) => resolveStreamLength (f.Get fuel) o
      | Except.error _ => Outcome.ok (Object.null "unable to parse object") := by
  simp only [PdfFile.Get]
  rw [hslot]
  dsimp only
  rw [hcont]
  dsimp only
  rw [hN]
  dsimp only
  rw [hdec]
  dsimp only
  rw [hidx]
  dsimp only
  rw [if_pos hsl, if_pos hmis]
  rw [scanPairs_first _ _ _ j hfirstm hj hjlen]
  dsimp only
  rw [hFirst]
  dsimp only
  rw [if_neg (by omega), if_neg (by omega)]

/-- Dictionary of the witness's object-stream container: two objects,
first relative offset base 8. -/
def c4Dict : List (String × Object) := [("N", Object.integer 2), ("First", Object.integer 8)]

/-- Witness container payload: the header `5 0 9 4 ` followed by `1` (the
object at relative offset 0, for number 5) and `7` (at relative offset 4,
for number 9). -/
def c4Payload : List Nat := [53, 32, 48, 32, 57, 32, 52, 32, 49, 32, 32, 32, 55, 32]

/-- Witness store: object 9 recorded as compressed in container 2 at slot
index 0 — but slot 0 of the container belongs to object 5. -/
def c4File : PdfFile :=
  { createFile with objects :=
      [(9, Slot.crossReference ⟨2, 2, 0⟩),
       (2, Slot.indirectObject 2 0 (Object.stream c4Dict c4Payload))] }

/-- Witness for C4: despite the stale slot index, `Get` of object 9
returns the integer 7 stored at the scanned-out offset. -/
theorem compressed_entry_self_heal_witness :
    c4File.Get 2 9 0 = Outcome.ok (Object.integer 7) := by
  have h := compressed_entry_self_heal 1 c4File 9 0 2 0 c4Dict c4Payload c4Payload
      2 8 [5, 0, 9, 4] 1 rfl rfl rfl rfl rfl (by decide) (by decide)
      (fun i hi => by
        have : i = 0 := by omega
        subst this
        decide)
      (by decide) (by decide) rfl (by decide) (by decide)
  exact h.trans (by decide)

/-! ## Fixed-width big-endian encoding lemmas -/

theorem length_intToBytes (v k : Nat) : (intToBytes v k).length = k := by
  induction k generalizing v with
  | zero => simp [intToBytes]
  | succ k ih => simp [intToBytes, ih]

theorem bytesToNat_intToBytes (v k : Nat) (h : v < 256 ^ k) :
    bytesToNat (intToBytes v k) = v := by
  induction k generalizing v with
  | zero =>
      simp [pow_zero, Nat.lt_one_iff] at h
      simp [intToBytes, bytesToNat, h]
  | succ k ih =>
      have hdiv : v / 256 < 256 ^ k := by
        rw [Nat.div_lt_iff_lt_mul (by omega)]
        calc v < 256 ^ (k + 1) := h
        _ = 256 ^ k * 256 := by ring
      simp only [intToBytes, bytesToNat, List.foldl_append]
      have := ih (v / 256) hdiv
      simp only [bytesToNat] at this
      rw [this]
      simp [Nat.div_add_mod]
      omega

theorem lt_pow_nBytesForIntGo (fuel n : Nat) (h : n ≤ fuel) :
    n < 256 ^ nBytesForIntGo n fuel := by
  induction fuel generalizing n with
  | zero =>
      have : n = 0 := by omega
      subst this
      simp [nBytesForIntGo]
  | succ fuel ih =>
      by_cases h256 : n < 256
      · simpa [nBytesForIntGo, h256] using h256
      · have hdiv : n / 256 ≤ fuel := by
          have : n / 256 < n := Nat.div_lt_self (by omega) (by omega)
          omega
        have := ih (n / 256) hdiv
        simp only [nBytesForIntGo, if_neg h256]
        calc n < 256 * (n / 256) + 256 := by
                have := Nat.div_add_mod n 256
                have : n % 256 < 256 := Nat.mod_lt _ (by omega)
                omega
        _ ≤ 256 * (256 ^ nBytesForIntGo (n / 256) fuel) := by
                have := ih (n / 256) hdiv
                omega
        _ = 256 ^ (1 + nBytesForIntGo (n / 256) fuel) := by ring
  
theorem lt_pow_nBytesForInt (v m : Nat) (h : v ≤ m) :
    v < 256 ^ nBytesForInt m := by
  have := lt_pow_nBytesForIntGo m m le_rfl
  simp only [nBytesForInt]
  omega

/-! ## Sorting and run-grouping lemmas -/

theorem insertSorted_eq (x : Nat) (l : List Nat) :
    insertSorted x l = List.orderedInsert (· ≤ ·) x l := by
  induction l with
  | nil => rfl
  | cons y ys ih => simp [insertSorted, List.orderedInsert, ih]

theorem sortNat_eq (l : List Nat) : sortNat l = List.insertionSort (· ≤ ·) l := by
  induction l with
  | nil => rfl
  | cons y ys ih => simp [sortNat, List.insertionSort, insertSorted_eq, ih]

theorem sorted_sortNat (l : List Nat) : (sortNat l).Sorted (· ≤ ·) := by
  rw [sortNat_eq]
  exact List.sorted_insertionSort _ l

theorem perm_sortNat (l : List Nat) : (sortNat l).Perm l := by
  rw [sortNat_eq]
  exact List.perm_insertionSort _ l

theorem nodup_sortNat (l : List Nat) (h : l.Nodup) : (sortNat l).Nodup :=
  ((perm_sortNat l).nodup_iff).2 h

theorem sortedLT_sortNat (l : List Nat) (h : l.Nodup) :
    (sortNat l).Sorted (· < ·) := by
  have h1 := sorted_sortNat l
  have h2 := nodup_sortNat l h
  exact (List.Pairwise.and h1 h2).imp (fun hp => lt_of_le_of_ne hp.1 hp.2)

theorem groupRunsAux_flatten (xs : List Nat) (acc : List Nat) (x : Nat) :
    (groupRunsAux acc x xs).flatten = acc ++ x :: xs := by
  induction xs generalizing acc x with
  | nil => simp [groupRunsAux]
  | cons y ys ih =>
      by_cases hy : y = x + 1 <;> simp [groupRunsAux, hy, ih]

theorem groupRuns_flatten (l : List Nat) : (groupRuns l).flatten = l := by
  cases l with
  | nil => simp [groupRuns]
  | cons x xs => simpa [groupRuns] using groupRunsAux_flatten xs [] x

theorem groupRunsAux_runs' (xs : List Nat) (acc : List Nat) (x a k : Nat)
    (hacc : acc ++ [x] = List.range' a (k + 1)) (hx : x = a + k)
    (hsort : (x :: xs).Sorted (· < ·)) :
    ∀ g ∈ groupRunsAux acc x xs, ∃ s m, g = List.range' s (m + 1) := by
  induction xs generalizing acc x a k with
  | nil =>
      intro g hg
      simp [groupRunsAux] at hg
      subst hg
      exact ⟨a, k, hacc⟩
  | cons y ys ih =>
      intro g hg
      by_cases hy : y = x + 1
      · simp only [groupRunsAux, if_pos hy] at hg
        refine ih (acc ++ [x]) y a (k + 1) ?_ ?_ ?_ g hg
        · rw [hacc, hy, hx]
          conv_rhs => rw [List.range'_concat]
          simp [Nat.add_assoc]
        · omega
        · exact hsort.of_cons
      · simp only [groupRunsAux, if_neg hy] at hg
        rcases List.mem_cons.1 hg with hg | hg
        · subst hg
          exact ⟨a, k, hacc⟩
        · refine ih [] y y 0 (by simp) (by omega) hsort.of_cons g hg

theorem groupRuns_runs (l : List Nat) (hne : l ≠ []) (h : l.Sorted (· < ·)) :
    ∀ g ∈ groupRuns l, ∃ s m, g = List.range' s (m + 1) := by
  cases l with
  | nil => exact absurd rfl hne
  | cons x xs =>
      simpa [groupRuns] using
        groupRunsAux_runs' xs [] x x 0 (by simp) (by omega) h

/-! ## Decoding the encoded cross-reference stream payload -/

theorem readRun_encoded (xr : List (Nat × CrossRef)) (w0 w1 w2 : Nat)
    (cnt : Nat) :
    ∀ (first : Nat) (R : List Nat),
    (∀ n ∈ List.range' first cnt,
      (xrefGet xr n).f0 < 256 ^ w0 ∧ (xrefGet xr n).f1 < 256 ^ w1 ∧
        (xrefGet xr n).f2 < 256 ^ w2) →
    readRun w0 w1 w2 first cnt
        (((List.range' first cnt).map (fun n =>
          intToBytes (xrefGet xr n).f0 w0 ++ intToBytes (xrefGet xr n).f1 w1 ++
            intToBytes (xrefGet xr n).f2 w2)).flatten ++ R) =
      Except.ok ((List.range' first cnt).map (fun n => (n, xrefGet xr n)), R) := by
  induction cnt with
  | zero => intro first R hb; simp [readRun]
  | succ cnt ih =>
      intro first R hb
      rw [List.range'_succ]
      simp only [List.map_cons, List.flatten_cons]
      have hfirst := hb first (by rw [List.range'_succ]; exact List.mem_cons_self _ _)
      have hshape :
          (intToBytes (xrefGet xr first).f0 w0 ++ intToBytes (xrefGet xr first).f1 w1 ++
              intToBytes (xrefGet xr first).f2 w2 ++
            ((List.range' (first + 1) cnt).map (fun n =>
              intToBytes (xrefGet xr n).f0 w0 ++ intToBytes (xrefGet xr n).f1 w1 ++
                intToBytes (xrefGet xr n).f2 w2)).flatten) ++ R =
          intToBytes (xrefGet xr first).f0 w0 ++ (intToBytes (xrefGet xr first).f1 w1 ++
            (intToBytes (xrefGet xr first).f2 w2 ++
              (((List.range' (first + 1) cnt).map (fun n =>
                intToBytes (xrefGet xr n).f0 w0 ++ intToBytes (xrefGet xr n).f1 w1 ++
                  intToBytes (xrefGet xr n).f2 w2)).flatten ++ R))) := by
        simp only [List.append_assoc]
      rw [hshape]
      have hAl : (intToBytes (xrefGet xr first).f0 w0).length = w0 := length_intToBytes _ _
      have hBl : (intToBytes (xrefGet xr first).f1 w1).length = w1 := length_intToBytes _ _
      have hCl : (intToBytes (xrefGet xr first).f2 w2).length = w2 := length_intToBytes _ _
      have hdrop0 : (intToBytes (xrefGet xr first).f0 w0 ++
          (intToBytes (xrefGet xr first).f1 w1 ++
            (intToBytes (xrefGet xr first).f2 w2 ++
              (((List.range' (first + 1) cnt).map (fun n =>
                intToBytes (xrefGet xr n).f0 w0 ++
                  intToBytes (xrefGet xr n).f1 w1 ++
                  intToBytes (xrefGet xr n).f2 w2)).flatten ++ R)))).drop w0 =
          intToBytes (xrefGet xr first).f1 w1 ++
            (intToBytes (xrefGet xr first).f2 w2 ++
              (((List.range' (first + 1) cnt).map (fun n =>
                intToBytes (xrefGet xr n).f0 w0 ++
                  intToBytes (xrefGet xr n).f1 w1 ++
                  intToBytes (xrefGet xr n).f2 w2)).flatten ++ R)) :=
        List.drop_left' hAl
      have hdrop01 : (intToBytes (xrefGet xr first).f0 w0 ++ (intToBytes (xrefGet xr first).f1 w1 ++
            (intToBytes (xrefGet xr first).f2 w2 ++
              (((List.range' (first + 1) cnt).map (fun n =>
                intToBytes (xrefGet xr n).f0 w0 ++ intToBytes (xrefGet xr n).f1 w1 ++
                  intToBytes (xrefGet xr n).f2 w2)).flatten ++ R)))).drop (w0 + w1) =
          intToBytes (xrefGet xr first).f2 w2 ++
            (((List.range' (first + 1) cnt).map (fun n =>
              intToBytes (xrefGet xr n).f0 w0 ++ intToBytes (xrefGet xr n).f1 w1 ++
                intToBytes (xrefGet xr n).f2 w2)).flatten ++ R) := by
        rw [← List.drop_drop, hdrop0]
        exact List.drop_left' hBl
      have hdropw : (intToBytes (xrefGet xr first).f0 w0 ++ (intToBytes (xrefGet xr first).f1 w1 ++
            (intToBytes (xrefGet xr first).f2 w2 ++
              (((List.range' (first + 1) cnt).map (fun n =>
                intToBytes (xrefGet xr n).f0 w0 ++ intToBytes (xrefGet xr n).f1 w1 ++
                  intToBytes (xrefGet xr n).f2 w2)).flatten ++ R)))).drop (w0 + w1 + w2) =
          ((List.range' (first + 1) cnt).map (fun n =>
            intToBytes (xrefGet xr n).f0 w0 ++ intToBytes (xrefGet xr n).f1 w1 ++
              intToBytes (xrefGet xr n).f2 w2)).flatten ++ R := by
        rw [← List.drop_drop, hdrop01]
        exact List.drop_left' hCl
      simp only [readRun]
      rw [if_neg (by simp [hAl, hBl, hCl]; omega)]
      rw [List.take_left' hAl, hdrop0, List.take_left' hBl, hdrop01,
          List.take_left' hCl, hdropw]
      rw [bytesToNat_intToBytes _ _ hfirst.1, bytesToNat_intToBytes _ _ hfirst.2.1,
          bytesToNat_intToBytes _ _ hfirst.2.2]
      rw [ih (first + 1) R
        (fun n hn => hb n (by rw [List.range'_succ]; exact List.mem_cons_of_mem _ hn))]
      simp [Except.map]

theorem indexPairs_groups (groups : List (List Nat)) :
    indexPairs ((groups.map (fun g =>
      [Object.integer (g.headD 0), Object.integer g.length])).flatten) =
      Except.ok (groups.map (fun g => (g.headD 0, g.length))) := by
  induction groups with
  | nil => rfl
  | cons g gs ih =>
      simp only [List.map_cons, List.flatten_cons, List.cons_append,
        List.nil_append]
      simp only [indexPairs]
      rw [if_neg (by omega)]
      rw [ih]
      simp [Except.map, Int.toNat_natCast]

theorem readRuns_encoded (xr : List (Nat × CrossRef)) (w0 w1 w2 : Nat)
    (groups : List (List Nat))
    (hruns : ∀ g ∈ groups, ∃ s m, g = List.range' s (m + 1))
    (hb : ∀ g ∈ groups, ∀ n ∈ g,
      (xrefGet xr n).f0 < 256 ^ w0 ∧ (xrefGet xr n).f1 < 256 ^ w1 ∧
        (xrefGet xr n).f2 < 256 ^ w2) :
    readRuns w0 w1 w2 (groups.map (fun g => (g.headD 0, g.length)))
        (xrefStreamPayload groups xr w0 w1 w2) =
      Except.ok ((groups.map (fun g =>
        g.map (fun n => (n, xrefGet xr n)))).flatten) := by
  induction groups with
  | nil => rfl
  | cons g gs ih =>
      obtain ⟨s, m, rfl⟩ := hruns g (List.mem_cons_self _ _)
      simp only [xrefStreamPayload, List.map_cons, List.flatten_cons]
      simp only [readRuns]
      have hhead : (List.range' s (m + 1)).headD 0 = s := by
        rw [List.range'_succ]; rfl
      have hlen : (List.range' s (m + 1)).length = m + 1 := by simp
      rw [hhead, hlen]
      rw [readRun_encoded xr w0 w1 w2 (m + 1) s _
        (fun n hn => hb _ (List.mem_cons_self _ _) n hn)]
      dsimp only
      have := ih (fun g hg => hruns g (List.mem_cons_of_mem _ hg))
        (fun g hg n hn => hb g (List.mem_cons_of_mem _ hg) n hn)
      simp only [xrefStreamPayload] at this
      rw [this]
      simp [Except.map]

theorem xrefFind_some_mem (m : List (Nat × CrossRef)) (k : Nat) (e : CrossRef)
    (h : xrefFind m k = some e) : (k, e) ∈ m := by
  induction m with
  | nil => simp [xrefFind] at h
  | cons p rest ih =>
      obtain ⟨k', v⟩ := p
      by_cases hk : k' = k
      · subst hk
        simp [xrefFind] at h
        simp [h]
      · simp [xrefFind, hk] at h
        exact List.mem_cons_of_mem _ (ih h)

theorem mem_keys_xrefFind_some (m : List (Nat × CrossRef)) (k : Nat)
    (h : k ∈ m.map (·.1)) : ∃ e, xrefFind m k = some e := by
  induction m with
  | nil => simp at h
  | cons p rest ih =>
      obtain ⟨k', v⟩ := p
      by_cases hk : k' = k
      · subst hk; exact ⟨v, by simp [xrefFind]⟩
      · have h' : k ∈ rest.map (·.1) := by
          simp only [List.map_cons, List.mem_cons] at h
          rcases h with h | h
          · exact absurd h.symm hk
          · exact h
        obtain ⟨e, he⟩ := ih h'
        exact ⟨e, by simpa [xrefFind, hk] using he⟩

theorem maxXref_bound (m : List (Nat × CrossRef)) :
    ∀ p ∈ m, p.2.f0 ≤ (maxXref m).f0 ∧ p.2.f1 ≤ (maxXref m).f1 ∧
      p.2.f2 ≤ (maxXref m).f2 := by
  have aux : ∀ (l : List (Nat × CrossRef)) (acc : CrossRef),
      (acc.f0 ≤ (l.foldl (fun a p =>
          (⟨max a.f0 p.2.f0, max a.f1 p.2.f1, max a.f2 p.2.f2⟩ : CrossRef)) acc).f0 ∧
       acc.f1 ≤ (l.foldl (fun a p =>
          (⟨max a.f0 p.2.f0, max a.f1 p.2.f1, max a.f2 p.2.f2⟩ : CrossRef)) acc).f1 ∧
       acc.f2 ≤ (l.foldl (fun a p =>
          (⟨max a.f0 p.2.f0, max a.f1 p.2.f1, max a.f2 p.2.f2⟩ : CrossRef)) acc).f2) ∧
      ∀ p ∈ l, p.2.f0 ≤ (l.foldl (fun a p =>
          (⟨max a.f0 p.2.f0, max a.f1 p.2.f1, max a.f2 p.2.f2⟩ : CrossRef)) acc).f0 ∧
        p.2.f1 ≤ (l.foldl (fun a p =>
          (⟨max a.f0 p.2.f0, max a.f1 p.2.f1, max a.f2 p.2.f2⟩ : CrossRef)) acc).f1 ∧
        p.2.f2 ≤ (l.foldl (fun a p =>
          (⟨max a.f0 p.2.f0, max a.f1 p.2.f1, max a.f2 p.2.f2⟩ : CrossRef)) acc).f2 := by
    intro l
    induction l with
    | nil => intro acc; simp
    | cons q rest ih =>
        intro acc
        constructor
        · refine ⟨le_trans (by simp) (ih _).1.1,
                  le_trans (by simp) (ih _).1.2.1,
                  le_trans (by simp) (ih _).1.2.2⟩
        · intro p hp
          rcases List.mem_cons.1 hp with rfl | hp
          · exact ⟨le_trans (by simp) (ih _).1.1,
                   le_trans (by simp) (ih _).1.2.1,
                   le_trans (by simp) (ih _).1.2.2⟩
          · exact (ih _).2 p hp
  intro p hp
  exact (aux m ⟨0, 0, 0⟩).2 p hp

/-! ## Write-loop lemmas for all-pending stores -/

theorem mem_keys_xrefSet (m : List (Nat × CrossRef)) (k j : Nat) (v : CrossRef) :
    j ∈ (xrefSet m k v).map (·.1) ↔ j = k ∨ j ∈ m.map (·.1) := by
  induction m with
  | nil => simp [xrefSet]
  | cons p rest ih =>
      obtain ⟨k', v'⟩ := p
      by_cases hk : k' = k
      · subst hk; simp [xrefSet]
      · simp [xrefSet, hk, ih]
        tauto

theorem nodup_keys_xrefSet (m : List (Nat × CrossRef)) (k : Nat) (v : CrossRef)
    (h : (m.map (·.1)).Nodup) : ((xrefSet m k v).map (·.1)).Nodup := by
  induction m with
  | nil => simp [xrefSet]
  | cons p rest ih =>
      obtain ⟨k', v'⟩ := p
      simp only [List.map_cons, List.nodup_cons] at h
      by_cases hk : k' = k
      · have hset : xrefSet ((k', v') :: rest) k v = (k, v) :: rest := by
          simp [xrefSet, hk]
        rw [hset]
        simp only [List.map_cons, List.nodup_cons]
        exact ⟨hk ▸ h.1, h.2⟩
      · simp only [xrefSet, if_neg hk, List.map_cons, List.nodup_cons]
        refine ⟨?_, ih h.2⟩
        rw [mem_keys_xrefSet]
        push_neg
        exact ⟨hk, h.1⟩

theorem nodup_keys_writeObjectsLoop (m : List (Nat × Slot)) :
    ∀ (d : Disk) (o : Nat) (xr : List (Nat × CrossRef)) (fr : List Nat),
    (xr.map (·.1)).Nodup →
    (((writeObjectsLoop m d o xr fr).2.2.1).map (·.1)).Nodup := by
  induction m with
  | nil => intro d o xr fr h; simpa [writeObjectsLoop] using h
  | cons p rest ih =>
      intro d o xr fr h
      obtain ⟨i, slot⟩ := p
      cases slot with
      | crossReference c =>
          by_cases h0 : c.f0 = 0
          · simp only [writeObjectsLoop, if_pos h0]
            exact ih _ _ _ _ h
          · simp only [writeObjectsLoop, if_neg h0]
            exact ih _ _ _ _ h
      | indirectObject n g obj =>
          simp only [writeObjectsLoop]
          exact ih _ _ _ _ (nodup_keys_xrefSet _ _ _ h)
      | freeObject g =>
          simp only [writeObjectsLoop]
          exact ih _ _ _ _ (nodup_keys_xrefSet _ _ _ h)

theorem writeObjectsLoop_disk_grows (m : List (Nat × Slot)) :
    ∀ (d : Disk) (o : Nat) (xr : List (Nat × CrossRef)) (fr : List Nat),
    ∃ t, (writeObjectsLoop m d o xr fr).1 = d ++ t := by
  induction m with
  | nil => intro d o xr fr; exact ⟨[], by simp [writeObjectsLoop]⟩
  | cons p rest ih =>
      intro d o xr fr
      obtain ⟨i, slot⟩ := p
      cases slot with
      | crossReference c =>
          by_cases h0 : c.f0 = 0
          · simp only [writeObjectsLoop, if_pos h0]
            exact ih _ _ _ _
          · simp only [writeObjectsLoop, if_neg h0]
            exact ih _ _ _ _
      | indirectObject n g obj =>
          simp only [writeObjectsLoop]
          obtain ⟨t, ht⟩ := ih (d ++ [DiskCell.obj n g obj, DiskCell.ws, DiskCell.ws])
            (o + 1 + 2) (xrefSet xr i ⟨1, o - 1, g⟩) fr
          exact ⟨[DiskCell.obj n g obj, DiskCell.ws, DiskCell.ws] ++ t, by
            rw [ht]; simp⟩
      | freeObject g =>
          simp only [writeObjectsLoop]
          exact ih _ _ _ _

theorem writeObjectsLoop_offset (m : List (Nat × Slot)) :
    ∀ (d : Disk) (o : Nat) (xr : List (Nat × CrossRef)) (fr : List Nat),
    o = d.length + 1 →
    (writeObjectsLoop m d o xr fr).2.1 = (writeObjectsLoop m d o xr fr).1.length + 1 := by
  induction m with
  | nil => intro d o xr fr ho; simpa [writeObjectsLoop] using ho
  | cons p rest ih =>
      intro d o xr fr ho
      obtain ⟨i, slot⟩ := p
      cases slot with
      | crossReference c =>
          by_cases h0 : c.f0 = 0
          · simp only [writeObjectsLoop, if_pos h0]
            exact ih _ _ _ _ ho
          · simp only [writeObjectsLoop, if_neg h0]
            exact ih _ _ _ _ ho
      | indirectObject n g obj =>
          simp only [writeObjectsLoop]
          refine ih _ _ _ _ ?_
          simp [ho]
      | freeObject g =>
          simp only [writeObjectsLoop]
          exact ih _ _ _ _ ho

theorem writeObjectsLoop_pending_free (m : List (Nat × Slot))
    (hall : ∀ p ∈ m, ∃ g v, p.2 = Slot.indirectObject p.1 g v) :
    ∀ (d : Disk) (o : Nat) (xr : List (Nat × CrossRef)) (fr : List Nat),
    (writeObjectsLoop m d o xr fr).2.2.2 = fr := by
  induction m with
  | nil => intro d o xr fr; simp [writeObjectsLoop]
  | cons p rest ih =>
      intro d o xr fr
      obtain ⟨i, slot⟩ := p
      obtain ⟨g0, v0, hslot⟩ := hall (i, slot) (List.mem_cons_self _ _)
      simp only at hslot
      subst hslot
      simp only [writeObjectsLoop]
      exact ih (fun q hq => hall q (List.mem_cons_of_mem _ hq)) _ _ _ _

theorem writeObjectsLoop_pending_cells (m : List (Nat × Slot)) :
    ∀ (d : Disk) (o : Nat) (xr : List (Nat × CrossRef)) (fr : List Nat),
    (∀ p ∈ m, ∃ g v, p.2 = Slot.indirectObject p.1 g v) →
    (m.map (·.1)).Nodup →
    o = d.length + 1 →
    d.getLast? = some DiskCell.ws →
    ∀ k g v, lookupSlot m k = some (Slot.indirectObject k g v) →
      ∃ p, xrefFind (writeObjectsLoop m d o xr fr).2.2.1 k = some ⟨1, p, g⟩ ∧
        1 ≤ p ∧ p + 1 ≤ (writeObjectsLoop m d o xr fr).1.length ∧
        (writeObjectsLoop m d o xr fr).1[p]? = some (DiskCell.obj k g v) ∧
        (writeObjectsLoop m d o xr fr).1[p - 1]? = some DiskCell.ws := by
  induction m with
  | nil =>
      intro d o xr fr hall hnodup ho hws k g v hk
      simp [lookupSlot] at hk
  | cons q rest ih =>
      intro d o xr fr hall hnodup ho hws k g v hk
      obtain ⟨i, slot⟩ := q
      obtain ⟨g0, v0, hslot⟩ := hall (i, slot) (List.mem_cons_self _ _)
      simp only at hslot
      subst hslot
      have hd1 : 1 ≤ d.length := by
        cases d
        · simp at hws
        · simp
      simp only [writeObjectsLoop]
      by_cases hik : i = k
      · subst hik
        have hk' : g0 = g ∧ v0 = v := by
          simp [lookupSlot] at hk
          exact hk
        obtain ⟨rfl, rfl⟩ := hk'
        have hrest : i ∉ rest.map (·.1) := by
          have hnod := hnodup
          simp only [List.map_cons, List.nodup_cons] at hnod
          exact hnod.1
        obtain ⟨t, hT⟩ := writeObjectsLoop_disk_grows rest
          (d ++ [DiskCell.obj i g0 v0, DiskCell.ws, DiskCell.ws]) (o + 1 + 2)
          (xrefSet xr i ⟨1, o - 1, g0⟩) fr
        refine ⟨o - 1, ?_, by omega, ?_, ?_, ?_⟩
        · rw [writeObjectsLoop_xrefs_notKey _ _ _ _ _ _ hrest]
          exact xrefFind_xrefSet_self _ _ _
        · rw [hT]
          simp
          omega
        · rw [hT]
          have hidx : o - 1 = d.length := by omega
          rw [hidx, List.append_assoc]
          rw [List.getElem?_append_right le_rfl]
          simp
        · rw [hT]
          have hidx : o - 1 - 1 = d.length - 1 := by omega
          rw [hidx, List.append_assoc]
          rw [List.getElem?_append_left (by omega)]
          rw [← List.getLast?_eq_getElem?]
          exact hws
      · have hk2 : lookupSlot rest k = some (Slot.indirectObject k g v) := by
          simpa [lookupSlot, hik] using hk
        refine ih (d ++ [DiskCell.obj i g0 v0, DiskCell.ws, DiskCell.ws])
          (o + 1 + 2) (xrefSet xr i ⟨1, o - 1, g0⟩) fr
          (fun q hq => hall q (List.mem_cons_of_mem _ hq))
          (by
            have hnod := hnodup
            simp only [List.map_cons, List.nodup_cons] at hnod
            exact hnod.2)
          (by simp [ho])
          (by rw [List.getLast?_append]; rfl)
          k g v hk2

/-! ## Add sequences and the load fold -/

/-- A sequence of `Add` calls of IndirectObjects (the round-trip workload);
`none` when any call is rejected or panics. -/
def addAll (f : PdfFile) : List (Nat × Nat × Object) → Option PdfFile
  | [] => some f
  | (n, g, v) :: rest =>
      match f.Add (Object.indirect n g v) with
      | .ok fmid _ _ => addAll fmid rest
      | _ => none

/-- The newest addition for an object number in a sequence of Adds. -/
def lastAdd : List (Nat × Nat × Object) → Nat → Option (Nat × Object)
  | [], _ => none
  | (n, g, v) :: rest, k =>
      match lastAdd rest k with
      | some r => some r
      | none => if n = k then some (g, v) else none

theorem add_ok_shape (f : PdfFile) (n g : Nat) (v : Object) (fr : PdfFile)
    (rn rg : Nat) (h : f.Add (Object.indirect n g v) = AddResult.ok fr rn rg) :
    fr = setSlot f n (Slot.indirectObject n g v) := by
  simp only [PdfFile.Add] at h
  cases hs : lookupSlot f.objects n with
  | none => simp [hs, setSlot] at h; simp [setSlot, h.1]
  | some s =>
      cases hmg : minGenerationNumber s with
      | none => simp [hs, hmg] at h
      | some mg =>
          by_cases hlt : g < mg
          · simp [hs, hmg, hlt] at h
          · simp [hs, hmg, hlt, setSlot] at h
            simp [setSlot, h.1]

theorem addAll_lookup (adds : List (Nat × Nat × Object)) :
    ∀ (f0 f1 : PdfFile), addAll f0 adds = some f1 →
    (f1.created = f0.created ∧ f1.mmap = f0.mmap ∧ f1.prev = f0.prev ∧
     f1.Root = f0.Root ∧ f1.Encrypt = f0.Encrypt ∧ f1.Info = f0.Info ∧
     f1.ID = f0.ID) ∧
    ∀ k, lookupSlot f1.objects k =
      match lastAdd adds k with
      | some (g, v) => some (Slot.indirectObject k g v)
      | none => lookupSlot f0.objects k := by
  induction adds with
  | nil =>
      intro f0 f1 h
      simp [addAll] at h
      subst h
      simp [lastAdd]
  | cons a rest ih =>
      intro f0 f1 h
      obtain ⟨n, g, v⟩ := a
      simp only [addAll] at h
      cases hadd : f0.Add (Object.indirect n g v) with
      | ok fmid rn rg =>
          rw [hadd] at h
          have hmid := add_ok_shape _ _ _ _ _ _ _ hadd
          subst hmid
          obtain ⟨hfields, hlk⟩ := ih _ _ h
          refine ⟨by simpa [setSlot] using hfields, ?_⟩
          intro k
          rw [hlk k]
          simp only [lastAdd]
          cases lastAdd rest k with
          | some r => rfl
          | none =>
              by_cases hnk : n = k
              · subst hnk
                simp [setSlot, lookupSlot_insertSlot_self]
              · simp only [if_neg hnk]
                simp [setSlot, lookupSlot_insertSlot_ne _ _ _ _ (Ne.symm hnk)]
      | genTooLow fmid rn rg => rw [hadd] at h; simp at h
      | panicked msg => rw [hadd] at h; simp at h

theorem loadFold_preserves (entries : List (Nat × CrossRef)) :
    ∀ (acc : List (Nat × Slot)) (k : Nat) (s : Slot),
    lookupSlot acc k = some s →
    lookupSlot (entries.foldl (fun a p =>
      if lookupSlot a p.1 = none then insertSlot a p.1 (Slot.crossReference p.2)
      else a) acc) k = some s := by
  induction entries with
  | nil => intro acc k s h; simpa using h
  | cons e rest ih =>
      intro acc k s h
      simp only [List.foldl_cons]
      by_cases he : lookupSlot acc e.1 = none
      · rw [if_pos he]
        apply ih
        by_cases hek : k = e.1
        · subst hek; rw [h] at he; cases he
        · rwa [lookupSlot_insertSlot_ne _ _ _ _ hek]
      · rw [if_neg he]
        exact ih _ _ _ h

theorem loadFold_adds (entries : List (Nat × CrossRef)) :
    ∀ (acc : List (Nat × Slot)) (k : Nat) (e : CrossRef),
    (entries.map (·.1)).Nodup →
    lookupSlot acc k = none →
    (k, e) ∈ entries →
    lookupSlot (entries.foldl (fun a p =>
      if lookupSlot a p.1 = none then insertSlot a p.1 (Slot.crossReference p.2)
      else a) acc) k = some (Slot.crossReference e) := by
  induction entries with
  | nil => intro acc k e _ _ hmem; simp at hmem
  | cons q rest ih =>
      intro acc k e hnodup hacc hmem
      obtain ⟨k1, e1⟩ := q
      simp only [List.map_cons, List.nodup_cons] at hnodup
      simp only [List.foldl_cons]
      rcases List.mem_cons.1 hmem with heq | hmem
      · have h1 : k = k1 := congrArg Prod.fst heq
        have h2 : e = e1 := congrArg Prod.snd heq
        subst h1
        subst h2
        rw [if_pos (show lookupSlot acc (k, e).1 = none from hacc)]
        apply loadFold_preserves
        exact lookupSlot_insertSlot_self _ _ _
      · have hkm : k ∈ rest.map (fun x => x.1) :=
          List.mem_map_of_mem (fun x => x.1) hmem
        have hk1 : k ≠ k1 := fun hc => hnodup.1 (hc ▸ hkm)
        by_cases he : lookupSlot acc k1 = none
        · rw [if_pos he]
          refine ih _ _ _ hnodup.2 ?_ hmem
          rwa [lookupSlot_insertSlot_ne _ _ _ _ hk1]
        · rw [if_neg he]
          exact ih _ _ _ hnodup.2 hacc hmem

/-! ## Batch 7: addAll invariants and small bridge lemmas -/

theorem lastAdd_mem (adds : List (Nat × Nat × Object)) :
    ∀ (k g : Nat) (v : Object), lastAdd adds k = some (g, v) →
      (k, g, v) ∈ adds := by
  induction adds with
  | nil => intro k g v h; simp [lastAdd] at h
  | cons a rest ih =>
      intro k g v h
      obtain ⟨n, g1, v1⟩ := a
      simp only [lastAdd] at h
      cases hr : lastAdd rest k with
      | some r =>
          rw [hr] at h
          obtain ⟨g2, v2⟩ := r
          obtain ⟨rfl, rfl⟩ : g2 = g ∧ v2 = v := by
            simpa using h
          exact List.mem_cons_of_mem _ (ih _ _ _ hr)
      | none =>
          rw [hr] at h
          by_cases hn : n = k
          · rw [if_pos hn] at h
            obtain ⟨rfl, rfl⟩ : g1 = g ∧ v1 = v := by simpa using h
            subst hn
            exact List.mem_cons_self _ _
          · rw [if_neg hn] at h
            cases h

theorem mem_insertSlot (m : List (Nat × Slot)) (k : Nat) (v : Slot) :
    ∀ q ∈ insertSlot m k v, q = (k, v) ∨ q ∈ m := by
  induction m with
  | nil => intro q hq; simp [insertSlot] at hq; simp [hq]
  | cons p rest ih =>
      obtain ⟨k', v'⟩ := p
      intro q hq
      by_cases h : k' = k
      · subst h
        have hq' : q ∈ (k', v) :: rest := by
          simpa only [insertSlot, if_pos rfl] using hq
        rcases List.mem_cons.1 hq' with rfl | hq2
        · exact Or.inl rfl
        · exact Or.inr (List.mem_cons_of_mem _ hq2)
      · simp only [insertSlot, if_neg h, List.mem_cons] at hq
        rcases hq with rfl | hq
        · exact Or.inr (List.mem_cons_self _ _)
        · rcases ih q hq with h1 | h1
          · exact Or.inl h1
          · exact Or.inr (List.mem_cons_of_mem _ h1)

theorem addAll_allPending (adds : List (Nat × Nat × Object)) :
    ∀ (f0 f1 : PdfFile), addAll f0 adds = some f1 →
    (∀ p ∈ f0.objects, ∃ g v, p.2 = Slot.indirectObject p.1 g v) →
    ∀ p ∈ f1.objects, ∃ g v, p.2 = Slot.indirectObject p.1 g v := by
  induction adds with
  | nil =>
      intro f0 f1 h hall
      simp [addAll] at h
      subst h
      exact hall
  | cons a rest ih =>
      intro f0 f1 h hall
      obtain ⟨n, g, v⟩ := a
      simp only [addAll] at h
      cases hadd : f0.Add (Object.indirect n g v) with
      | ok fmid rn rg =>
          rw [hadd] at h
          have hmid := add_ok_shape _ _ _ _ _ _ _ hadd
          subst hmid
          refine ih _ _ h ?_
          intro p hp
          simp only [setSlot] at hp
          rcases mem_insertSlot _ _ _ p hp with rfl | hp'
          · exact ⟨g, v, rfl⟩
          · exact hall p hp'
      | genTooLow fmid rn rg => rw [hadd] at h; simp at h
      | panicked msg => rw [hadd] at h; simp at h

theorem mem_keys_insertSlot (m : List (Nat × Slot)) (k j : Nat) (v : Slot) :
    j ∈ (insertSlot m k v).map (·.1) ↔ j = k ∨ j ∈ m.map (·.1) := by
  induction m with
  | nil => simp [insertSlot]
  | cons p rest ih =>
      obtain ⟨k', v'⟩ := p
      by_cases hk : k' = k
      · subst hk; simp [insertSlot]
      · simp [insertSlot, hk, ih]
        tauto

theorem nodup_keys_insertSlot (m : List (Nat × Slot)) (k : Nat) (v : Slot)
    (h : (m.map (·.1)).Nodup) : ((insertSlot m k v).map (·.1)).Nodup := by
  induction m with
  | nil => simp [insertSlot]
  | cons p rest ih =>
      obtain ⟨k', v'⟩ := p
      simp only [List.map_cons, List.nodup_cons] at h
      by_cases hk : k' = k
      · have hset : insertSlot ((k', v') :: rest) k v = (k, v) :: rest := by
          simp [insertSlot, hk]
        rw [hset]
        simp only [List.map_cons, List.nodup_cons]
        exact ⟨hk ▸ h.1, h.2⟩
      · simp only [insertSlot, if_neg hk, List.map_cons, List.nodup_cons]
        refine ⟨?_, ih h.2⟩
        rw [mem_keys_insertSlot]
        push_neg
        exact ⟨hk, h.1⟩

theorem addAll_nodupKeys (adds : List (Nat × Nat × Object)) :
    ∀ (f0 f1 : PdfFile), addAll f0 adds = some f1 →
    ((f0.objects.map (·.1)).Nodup) → ((f1.objects.map (·.1)).Nodup) := by
  induction adds with
  | nil =>
      intro f0 f1 h hn
      simp [addAll] at h
      subst h
      exact hn
  | cons a rest ih =>
      intro f0 f1 h hn
      obtain ⟨n, g, v⟩ := a
      simp only [addAll] at h
      cases hadd : f0.Add (Object.indirect n g v) with
      | ok fmid rn rg =>
          rw [hadd] at h
          have hmid := add_ok_shape _ _ _ _ _ _ _ hadd
          subst hmid
          exact ih _ _ h (by simpa [setSlot] using nodup_keys_insertSlot _ n _ hn)
      | genTooLow fmid rn rg => rw [hadd] at h; simp at h
      | panicked msg => rw [hadd] at h; simp at h

theorem lookupSlot_some_mem_keys (m : List (Nat × Slot)) (k : Nat) (s : Slot)
    (h : lookupSlot m k = some s) : k ∈ m.map (·.1) := by
  induction m with
  | nil => simp [lookupSlot] at h
  | cons p rest ih =>
      obtain ⟨k', v'⟩ := p
      by_cases hk : k' = k
      · subst hk; simp
      · simp only [lookupSlot, if_neg hk] at h
        simp [ih h]

theorem xrefGet_eq_of_find (m : List (Nat × CrossRef)) (k : Nat) (e : CrossRef)
    (h : xrefFind m k = some e) : xrefGet m k = e := by
  simp [xrefGet, h]

theorem keys_entries_flatten (groups : List (List Nat))
    (xr : List (Nat × CrossRef)) :
    ((groups.map (fun g => g.map (fun n => (n, xrefGet xr n)))).flatten).map
        (·.1) = groups.flatten := by
  induction groups with
  | nil => rfl
  | cons g gs ih =>
      simp only [List.map_cons, List.flatten_cons, List.map_append, ih,
        List.map_map]
      congr 1
      exact List.map_id' _

theorem mem_entries_flatten (groups : List (List Nat))
    (xr : List (Nat × CrossRef)) (n : Nat) (h : n ∈ groups.flatten) :
    (n, xrefGet xr n) ∈
      (groups.map (fun g => g.map (fun n => (n, xrefGet xr n)))).flatten := by
  obtain ⟨g, hg, hn⟩ := List.mem_flatten.1 h
  exact List.mem_flatten.2 ⟨_, List.mem_map_of_mem _ hg,
    List.mem_map_of_mem _ hn⟩

/-! ## Batch 8: evaluating openDisk on a single-revision xref-stream disk -/

theorem sortNat_singleton (a : Nat) : sortNat [a] = [a] := rfl

theorem linkFreeList_singleton (a : Nat) (m : List (Nat × CrossRef)) :
    linkFreeList [a] m = m := rfl

/-- Computing `openDisk` on a disk holding one revision whose
cross-reference stream sits directly before the footer: a headed body
`d2`, then the xref stream object, then the `startxref` footer pointing at
the stream.  The trailer hypotheses name exactly the lookups the loader
performs. -/
theorem openDisk_eval (r2 : Disk) (X : Nat)
    (T : List (String × Object)) (P : List Nat) (s : Int)
    (a0 a1 a2 : Nat) (IX : List Object) (pairs : List (Nat × Nat))
    (entries : List (Nat × CrossRef)) (szn : Nat) (rn rg : Nat)
    (hs : s = ((DiskCell.header :: r2 : Disk).length : Int))
    (hfil : dictGet T "Filter" = none)
    (hW : dictGet T "W" = some (Object.array
      [Object.integer a0, Object.integer a1, Object.integer a2]))
    (hIdx : dictGet T "Index" = some (Object.array IX))
    (hpairs : indexPairs IX = Except.ok pairs)
    (hread : readRuns a0 a1 a2 pairs P = Except.ok entries)
    (hprevT : dictGet T "Prev" = none)
    (hsize : dictGet T "Size" = some (Object.integer szn))
    (hroot : dictGet T "Root" = some (Object.ref rn rg))
    (henc : dictGet T "Encrypt" = none)
    (hinfo : dictGet T "Info" = none)
    (hid : dictGet T "ID" = none) :
    openDisk ((DiskCell.header :: r2) ++
        [DiskCell.obj X 0 (Object.stream T P), DiskCell.footer s]) 1 =
      Except.ok
        { created := false,
          mmap := (DiskCell.header :: r2) ++
            [DiskCell.obj X 0 (Object.stream T P), DiskCell.footer s],
          objects := entries.foldl (fun a p =>
            if lookupSlot a p.1 = none then
              insertSlot a p.1 (Slot.crossReference p.2)
            else a) [],
          size := szn, prev := s, Root := (rn, rg), Encrypt := [],
          Info := (0, 0), ID := [] } := by
  have hsNat : s.toNat = r2.length + 1 := by
    rw [hs]; simp
  have hparse : parseXrefStreamAt ((DiskCell.header :: r2) ++
      [DiskCell.obj X 0 (Object.stream T P), DiskCell.footer s]) s.toNat =
      Except.ok (entries, T) := by
    rw [parseXrefStreamAt]
    rw [if_neg (by simp [hsNat])]
    have hdrop : ((DiskCell.header :: r2) ++
        [DiskCell.obj X 0 (Object.stream T P), DiskCell.footer s]).drop
          s.toNat = [DiskCell.obj X 0 (Object.stream T P),
            DiskCell.footer s] := by
      have h1 : s.toNat = (DiskCell.header :: r2 : Disk).length := by
        simp [hsNat]
      rw [h1, List.drop_left]
    rw [hdrop]
    have hpio : parseIndirectObject [DiskCell.obj X 0 (Object.stream T P),
        DiskCell.footer s] = Except.ok (X, 0, Object.stream T P) := rfl
    rw [hpio]
    dsimp only
    rw [show decodeStream T P = Except.ok P by
      simp [decodeStream, hfil]]
    dsimp only
    rw [hW]
    dsimp only
    rw [if_neg (by push_neg; omega)]
    rw [hIdx]
    dsimp only
    rw [hpairs]
    dsimp only
    simp only [Int.toNat_natCast]
    rw [hread]
    rfl
  have hparse' : parseXrefStreamAt (DiskCell.header :: (r2 ++
      [DiskCell.obj X 0 (Object.stream T P), DiskCell.footer s])) s.toNat =
      Except.ok (entries, T) := hparse
  have hfind : ((DiskCell.header :: (r2 ++
      [DiskCell.obj X 0 (Object.stream T P),
       DiskCell.footer s])).reverse).find? isFooterCell =
      some (DiskCell.footer s) := by
    rw [show (DiskCell.header :: (r2 ++
        [DiskCell.obj X 0 (Object.stream T P), DiskCell.footer s])) =
        ((DiskCell.header :: r2) ++
          [DiskCell.obj X 0 (Object.stream T P), DiskCell.footer s])
      from rfl]
    rw [List.reverse_append]
    rfl
  have hload : loadChain (DiskCell.header :: (r2 ++
      [DiskCell.obj X 0 (Object.stream T P), DiskCell.footer s])) 1 s.toNat
      [] = Except.ok (entries.foldl (fun a p =>
        if lookupSlot a p.1 = none then
          insertSlot a p.1 (Slot.crossReference p.2)
        else a) []) := by
    rw [show (1 : Nat) = 0 + 1 from rfl]
    rw [loadChain]
    rw [hparse']
    dsimp only
    rw [hprevT]
  show openDisk (DiskCell.header :: (r2 ++
      [DiskCell.obj X 0 (Object.stream T P), DiskCell.footer s])) 1 = _
  rw [openDisk]
  rw [hfind]
  dsimp only
  rw [if_neg (by omega)]
  rw [hparse']
  dsimp only
  rw [hload]
  dsimp only
  rw [hsize, hroot]
  dsimp only
  rw [if_neg (by omega)]
  rw [henc, hinfo, hid]
  rfl

/-! ## Batch 9: the round trip -/

theorem drop_saved_disk (d2 : Disk) (num gen : Nat) (v : Object) (p : Nat)
    (tail : Disk) (hp1 : 1 ≤ p) (hplen : p + 1 ≤ d2.length)
    (hpcell : d2[p]? = some (DiskCell.obj num gen v))
    (hpws : d2[p - 1]? = some DiskCell.ws) :
    (d2 ++ tail).drop (p - 1) =
      DiskCell.ws :: DiskCell.obj num gen v :: (d2.drop (p + 1) ++ tail) := by
  rw [List.drop_append_of_le_length (by omega)]
  obtain ⟨hlt1, hget1⟩ := List.getElem?_eq_some.1 hpws
  obtain ⟨hlt2, hget2⟩ := List.getElem?_eq_some.1 hpcell
  rw [List.drop_eq_getElem_cons hlt1, hget1]
  have hp' : p - 1 + 1 = p := by omega
  rw [hp', List.drop_eq_getElem_cons hlt2, hget2]
  simp

theorem get_cross_normal (f2 : PdfFile) (num qgen p gen fuel : Nat)
    (v : Object)
    (hobj : lookupSlot f2.objects num =
      some (Slot.crossReference ⟨1, p, gen⟩))
    (hp1 : 1 ≤ p)
    (hmlen : ¬ f2.mmap.length < p - 1)
    (hparse : parseIndirectObject (f2.mmap.drop (p - 1)) =
      Except.ok (num, gen, v))
    (hvlen : hasRefLength v = false) :
    PdfFile.Get (fuel + 1) f2 num qgen = Outcome.ok v := by
  rw [PdfFile.Get]
  dsimp only
  rw [hobj]
  dsimp only
  rw [if_neg (by omega)]
  rw [if_neg hmlen]
  rw [hparse]
  dsimp only
  exact resolveStreamLength_id _ _ hvlen

/-- C1 (amended): round trip through one save.  For every sequence of
`Add` calls of IndirectObjects starting from `Create` in which every call
succeeds, and for every object number in the sequence, `Save` followed by
`Open` of the written disk succeeds, and `Get` on that object number — at
any queried generation and any positive fuel — returns the newest value
added for that number, provided that value is not a Stream whose `Length`
entry is an ObjectReference.  The claim's literal per-added-reference
reading fails for object numbers added more than once (the earlier value
is unrecoverable, see the counterexample) and for reference-`Length`
stream values (`Get` rewrites or panics on those, as C2 and C6 record). -/
theorem save_open_get_roundtrip (adds : List (Nat × Nat × Object))
    (f1 : PdfFile) (hadds : addAll createFile adds = some f1)
    (num gen : Nat) (v : Object) (hlast : lastAdd adds num = some (gen, v))
    (hvlen : hasRefLength v = false) :
    ∃ f2, openDisk ((f1.Save createDisk).disk) 1 = Except.ok f2 ∧
      ∀ fuel qgen, PdfFile.Get (fuel + 1) f2 num qgen = Outcome.ok v := by
  obtain ⟨hfields, hlk⟩ := addAll_lookup adds createFile f1 hadds
  obtain ⟨hcr, hmm, hprevF, hRootF, hEncF, hInfoF, hIDF⟩ := hfields
  have hprev0 : f1.prev = 0 := by rw [hprevF]; rfl
  have hRoot0 : f1.Root = (0, 0) := by rw [hRootF]; rfl
  have hEnc0 : f1.Encrypt = [] := by rw [hEncF]; rfl
  have hInfo0 : f1.Info = (0, 0) := by rw [hInfoF]; rfl
  have hID0 : f1.ID = [] := by rw [hIDF]; rfl
  have hall : ∀ q ∈ f1.objects, ∃ g w, q.2 = Slot.indirectObject q.1 g w :=
    addAll_allPending adds createFile f1 hadds (by simp [createFile])
  have hnodup : (f1.objects.map (·.1)).Nodup :=
    addAll_nodupKeys adds createFile f1 hadds (by simp [createFile])
  have hlknum : lookupSlot f1.objects num =
      some (Slot.indirectObject num gen v) := by
    rw [hlk num, hlast]
  have hnumkeys : num ∈ f1.objects.map (·.1) :=
    lookupSlot_some_mem_keys _ _ _ hlknum
  have hnumle : num ≤ maxObjNum f1.objects := key_le_maxObjNum _ _ hnumkeys
  have hCT : ∀ sz : Nat, commonTrailer f1 sz =
      [("Size", Object.integer sz), ("Root", Object.ref 0 0)] := by
    intro sz
    simp [commonTrailer, hprev0, hEnc0, hInfo0, hID0, hRoot0, dictSet]
  simp only [PdfFile.Save, PdfFile.saveUsingXrefStream]
  rcases hw : writeObjectsLoop f1.objects
      (createDisk ++ [DiskCell.ws, DiskCell.ws])
      (createDisk.length + 1 + 2) [(0, ⟨0, 0, 65535⟩)] [0]
    with ⟨d2, o2, x1, fr1⟩
  rw [add_over_normal_entry_gen0 _ _ _ _ (lookupSlot_insertSlot_self _ _ _)]
  dsimp only
  have hfr : fr1 = [0] := by
    have h := writeObjectsLoop_pending_free f1.objects hall
      (createDisk ++ [DiskCell.ws, DiskCell.ws])
      (createDisk.length + 1 + 2) [(0, ⟨0, 0, 65535⟩)] [0]
    rw [hw] at h
    exact h
  subst hfr
  have ho2 : o2 = d2.length + 1 := by
    have h := writeObjectsLoop_offset f1.objects
      (createDisk ++ [DiskCell.ws, DiskCell.ws])
      (createDisk.length + 1 + 2) [(0, ⟨0, 0, 65535⟩)] [0] (by rfl)
    rw [hw] at h
    exact h
  obtain ⟨t2, ht2⟩ := writeObjectsLoop_disk_grows f1.objects
      (createDisk ++ [DiskCell.ws, DiskCell.ws])
      (createDisk.length + 1 + 2) [(0, ⟨0, 0, 65535⟩)] [0]
  rw [hw] at ht2
  have ht2c : d2 = DiskCell.header :: DiskCell.ws :: DiskCell.ws :: t2 := ht2
  have hd2len : d2.length = t2.length + 3 := by rw [ht2c]; simp
  have hnx1 : (x1.map (·.1)).Nodup := by
    have h := nodup_keys_writeObjectsLoop f1.objects
      (createDisk ++ [DiskCell.ws, DiskCell.ws])
      (createDisk.length + 1 + 2) [(0, ⟨0, 0, 65535⟩)] [0] (by simp)
    rw [hw] at h
    exact h
  obtain ⟨p, hpfind, hp1, hplen, hpcell, hpws⟩ :
      ∃ p, xrefFind x1 num = some ⟨1, p, gen⟩ ∧ 1 ≤ p ∧
        p + 1 ≤ d2.length ∧ d2[p]? = some (DiskCell.obj num gen v) ∧
        d2[p - 1]? = some DiskCell.ws := by
    have h := writeObjectsLoop_pending_cells f1.objects
      (createDisk ++ [DiskCell.ws, DiskCell.ws])
      (createDisk.length + 1 + 2) [(0, ⟨0, 0, 65535⟩)] [0]
      hall hnodup (by rfl) (by rfl) num gen v hlknum
    rw [hw] at h
    exact h
  rw [sortNat_singleton, linkFreeList_singleton]
  rw [ht2c]
  have hXnum : num ≠ maxObjNum f1.objects + 1 := by omega
  have hfindXS : xrefFind (xrefSet x1 (maxObjNum f1.objects + 1)
      ⟨1, o2 - 1, 0⟩) num = some ⟨1, p, gen⟩ := by
    rw [xrefFind_xrefSet_ne _ _ _ _ hXnum]
    exact hpfind
  have hnXS : ((xrefSet x1 (maxObjNum f1.objects + 1)
      ⟨1, o2 - 1, 0⟩).map (·.1)).Nodup := nodup_keys_xrefSet _ _ _ hnx1
  have hXmem : (maxObjNum f1.objects + 1) ∈
      (xrefSet x1 (maxObjNum f1.objects + 1) ⟨1, o2 - 1, 0⟩).map (·.1) :=
    List.mem_map_of_mem _
      (xrefFind_some_mem _ _ _ (xrefFind_xrefSet_self x1 _ _))
  set XS := xrefSet x1 (maxObjNum f1.objects + 1) ⟨1, o2 - 1, 0⟩ with hXSdef
  have hneS : sortNat (XS.map (·.1)) ≠ [] :=
    List.ne_nil_of_mem ((mem_sortNat _ _).2 hXmem)
  have hruns := groupRuns_runs _ hneS (sortedLT_sortNat _ hnXS)
  have hb : ∀ g ∈ groupRuns (sortNat (XS.map (·.1))), ∀ n ∈ g,
      (xrefGet XS n).f0 < 256 ^ nBytesForInt (maxXref XS).f0 ∧
      (xrefGet XS n).f1 < 256 ^ nBytesForInt (maxXref XS).f1 ∧
      (xrefGet XS n).f2 < 256 ^ nBytesForInt (maxXref XS).f2 := by
    intro g hg n hn
    have h1 : n ∈ (groupRuns (sortNat (XS.map (·.1)))).flatten :=
      List.mem_flatten.2 ⟨g, hg, hn⟩
    rw [groupRuns_flatten] at h1
    have hnf : n ∈ XS.map (·.1) := (mem_sortNat _ _).1 h1
    obtain ⟨e, he⟩ := mem_keys_xrefFind_some _ _ hnf
    have hbd := maxXref_bound XS _ (xrefFind_some_mem _ _ _ he)
    rw [xrefGet_eq_of_find _ _ _ he]
    exact ⟨lt_pow_nBytesForInt _ _ hbd.1, lt_pow_nBytesForInt _ _ hbd.2.1,
      lt_pow_nBytesForInt _ _ hbd.2.2⟩
  have hread := readRuns_encoded XS (nBytesForInt (maxXref XS).f0)
    (nBytesForInt (maxXref XS).f1) (nBytesForInt (maxXref XS).f2)
    (groupRuns (sortNat (XS.map (·.1)))) hruns hb
  have hs : ((o2 : Int) - 1) =
      ((DiskCell.header :: DiskCell.ws :: DiskCell.ws :: t2 :
        Disk).length : Int) := by
    simp only [List.length_cons]
    omega
  refine ⟨_, openDisk_eval _ _ _ _ _ _ _ _ _ _ _
    (maxObjNum f1.objects + 1 + 1) 0 0
    hs ?_ ?_ ?_ (indexPairs_groups _) hread ?_ ?_ ?_ ?_ ?_ ?_, ?_⟩
  · rw [dictGet_dictSet_ne _ _ _ _ (by decide),
        dictGet_dictSet_ne _ _ _ _ (by decide),
        dictGet_dictSet_ne _ _ _ _ (by decide), hCT]
    rfl
  · exact dictGet_dictSet_self _ _ _
  · rw [dictGet_dictSet_ne _ _ _ _ (by decide)]
    exact dictGet_dictSet_self _ _ _
  · rw [dictGet_dictSet_ne _ _ _ _ (by decide),
        dictGet_dictSet_ne _ _ _ _ (by decide),
        dictGet_dictSet_ne _ _ _ _ (by decide), hCT]
    rfl
  · rw [dictGet_dictSet_ne _ _ _ _ (by decide),
        dictGet_dictSet_ne _ _ _ _ (by decide),
        dictGet_dictSet_ne _ _ _ _ (by decide)]
    exact dictGet_commonTrailer_Size f1 _
  · rw [dictGet_dictSet_ne _ _ _ _ (by decide),
        dictGet_dictSet_ne _ _ _ _ (by decide),
        dictGet_dictSet_ne _ _ _ _ (by decide), hCT]
    rfl
  · rw [dictGet_dictSet_ne _ _ _ _ (by decide),
        dictGet_dictSet_ne _ _ _ _ (by decide),
        dictGet_dictSet_ne _ _ _ _ (by decide), hCT]
    rfl
  · rw [dictGet_dictSet_ne _ _ _ _ (by decide),
        dictGet_dictSet_ne _ _ _ _ (by decide),
        dictGet_dictSet_ne _ _ _ _ (by decide), hCT]
    rfl
  · rw [dictGet_dictSet_ne _ _ _ _ (by decide),
        dictGet_dictSet_ne _ _ _ _ (by decide),
        dictGet_dictSet_ne _ _ _ _ (by decide), hCT]
    rfl
  intro fuel qgen
  have hkeysE :
      ((((groupRuns (sortNat (XS.map (·.1)))).map (fun g =>
        g.map (fun n => (n, xrefGet XS n)))).flatten).map (·.1)) =
        sortNat (XS.map (·.1)) := by
    rw [keys_entries_flatten, groupRuns_flatten]
  have hnodupE : (((((groupRuns (sortNat (XS.map (·.1)))).map (fun g =>
      g.map (fun n => (n, xrefGet XS n)))).flatten).map (·.1))).Nodup := by
    rw [hkeysE]
    exact nodup_sortNat _ hnXS
  have hmemE : (num, (⟨1, p, gen⟩ : CrossRef)) ∈
      ((groupRuns (sortNat (XS.map (·.1)))).map (fun g =>
        g.map (fun n => (n, xrefGet XS n)))).flatten := by
    have h1 : num ∈ XS.map (·.1) :=
      List.mem_map_of_mem _ (xrefFind_some_mem _ _ _ hfindXS)
    have h2 : num ∈ (groupRuns (sortNat (XS.map (·.1)))).flatten := by
      rw [groupRuns_flatten]
      exact (mem_sortNat _ _).2 h1
    have h3 := mem_entries_flatten _ XS num h2
    rw [xrefGet_eq_of_find _ _ _ hfindXS] at h3
    exact h3
  have hobj := loadFold_adds _ ([] : List (Nat × Slot)) num
    (⟨1, p, gen⟩ : CrossRef) hnodupE rfl hmemE
  refine get_cross_normal _ num qgen p gen fuel v hobj hp1 ?_ ?_ hvlen
  · dsimp only
    simp only [List.length_append, List.length_cons]
    omega
  · dsimp only
    rw [← ht2c]
    rw [drop_saved_disk d2 num gen v p _ hp1 hplen hpcell hpws]
    rfl


/-- The single-object workload of the round-trip witness. -/
def c1Adds : List (Nat × Nat × Object) := [(1, 0, Object.integer 42)]

/-- Witness for C1 at the one-object workload `[(1, 0, Integer 42)]`:
the add succeeds, the saved disk reopens, and `Get 1` returns 42. -/
theorem save_open_get_roundtrip_witness :
    addAll createFile c1Adds =
      some (setSlot createFile 1
        (Slot.indirectObject 1 0 (Object.integer 42))) ∧
    lastAdd c1Adds 1 = some (0, Object.integer 42) ∧
    hasRefLength (Object.integer 42) = false ∧
    ∃ f2, openDisk (((setSlot createFile 1
          (Slot.indirectObject 1 0 (Object.integer 42))).Save
            createDisk).disk) 1 = Except.ok f2 ∧
      ∀ fuel qgen, PdfFile.Get (fuel + 1) f2 1 qgen =
        Outcome.ok (Object.integer 42) :=
  ⟨rfl, rfl, rfl,
    save_open_get_roundtrip c1Adds _ rfl 1 0 (Object.integer 42) rfl rfl⟩

/-- The store after adding object number 1 twice (values 5 then 7). -/
def c1CexFile : PdfFile :=
  setSlot (setSlot createFile 1 (Slot.indirectObject 1 0 (Object.integer 5)))
    1 (Slot.indirectObject 1 1 (Object.integer 7))

/-- C1 counterexample to the claim's literal per-added-reference reading:
adding object number 1 twice (values 5 then 7), saving and reopening
leaves `Get` returning 7 for the first add's reference `1 0 R` as well;
the first added value is not recoverable after the round trip. -/
theorem roundtrip_duplicate_number_counterexample :
    addAll createFile [(1, 0, Object.integer 5), (1, 1, Object.integer 7)] =
      some c1CexFile ∧
    (openDisk ((c1CexFile.Save createDisk).disk) 1).map
        (fun f2 => PdfFile.Get 2 f2 1 0) =
      Except.ok (Outcome.ok (Object.integer 7)) ∧
    Object.integer 7 ≠ Object.integer 5 := by
  refine ⟨by decide, rfl, by decide⟩
